import Mathlib

/-!
Verification development for the website-plunder repository.

The repository replicates a public web page: it fetches the page, extracts
image and stylesheet references, fetches them, inlines them into the markup,
strips active content, and returns a self-contained document.

This file shallowly embeds the relevant source code:
  * `server/mcps/parser.js`   — `Parser` (resolveUrl, extractAssets,
    stripUnsafeContent, rewriteAssets, processCSS, addReplicaBanner),
    and `Fetcher.checkRobots` / `Fetcher.fetchHTML`;
  * `server/mcps/storage.js`  — `Storage` (storeAsset, getAssetMap,
    clearSession);
  * the `/replicate` route    — `replicate` (orchestration, stats, cleanup).

HTML documents are modelled as a tree of element and text nodes (the cheerio
DOM).  JavaScript strings are Lean `String`s; JS regular-expression scans are
modelled by explicit character-level scanners implementing the exact patterns
of the source.  External library calls (`new URL(...)`, the WHATWG URL
resolver) are a parameter (`UrlLib`) of every function that uses them, so the
theorems quantify over the library's behaviour; concrete evaluations
instantiate it with a small model that agrees with the library on the inputs
used.  Network fetches are oracles (`String → Option String`, `none` = the
fetch failed), matching the fetcher's contract that asset fetches never throw.
-/

namespace WebsitePlunder

/-! ### String helpers (JS built-ins used by the source) -/

/-- `listPfx p s` : the character list `p` is a prefix of `s`
(JS `String.prototype.startsWith`, character-wise). -/
def listPfx : List Char → List Char → Bool
  | [], _ => true
  | _ :: _, [] => false
  | a :: as, b :: bs => a == b && listPfx as bs

/-- JS `s.startsWith(p)`. -/
def strStarts (s p : String) : Bool := listPfx p.data s.data

/-- `subAt sub s` : `sub` occurs in `s` (at any position). -/
def subAt : List Char → List Char → Bool
  | sub, [] => listPfx sub []
  | sub, c :: cs => listPfx sub (c :: cs) || subAt sub cs

/-- JS `s.includes(p)`; also the CSS `[style*="background"]` substring test. -/
def strContains (s p : String) : Bool := subAt p.data s.data

/-- The JS regex whitespace class `\s` (the characters relevant here). -/
def isSpaceChar (c : Char) : Bool :=
  c == ' ' || c == '\t' || c == '\n' || c == '\r' || c == '\x0b' || c == '\x0c'

/-- A character admitted by the class `[^'")\s]` used in every `url()` /
`@import` regex of `parser.js`. -/
def urlCharOk (c : Char) : Bool :=
  !(c == '\'' || c == '"' || c == ')' || isSpaceChar c)

/-- `replaceAllF fuel s p r` : replace every (non-overlapping, left-to-right)
occurrence of `p` in `s` by `r`.  Models JS
`s.replace(new RegExp(escapedP, 'g'), r)` as used in `rewriteAssets` and
`processCSS` (the pattern is regex-escaped there, so it is a literal).
`fuel ≥ s.length` always suffices; an empty pattern never occurs in the
source (the regexes produce non-empty match groups). -/
def replaceAllF (p r : List Char) : Nat → List Char → List Char
  | 0, s => s
  | _ + 1, [] => []
  | fuel + 1, c :: cs =>
    if p ≠ [] ∧ listPfx p (c :: cs) then
      r ++ replaceAllF p r fuel ((c :: cs).drop p.length)
    else
      c :: replaceAllF p r fuel cs

/-- JS global literal-pattern `String.prototype.replace`. -/
def strReplaceAll (s p r : String) : String :=
  ⟨replaceAllF p.data r.data s.data.length s.data⟩

/-! ### Association-list lookups (JS object indexing / attribute maps) -/

/-- First-occurrence lookup in an association list.  Models both JS object
indexing (`assetMap[key]`, keys unique) and cheerio's `$(elem).attr(name)`. -/
def alookup : List (String × String) → String → Option String
  | [], _ => none
  | (n, v) :: rest, m => if n = m then some v else alookup rest m

/-- cheerio `$(elem).removeAttr(name)` : drop every entry with that name. -/
def removeAttr : List (String × String) → String → List (String × String)
  | [], _ => []
  | p :: rest, n => if p.1 = n then removeAttr rest n else p :: removeAttr rest n

/-- Whether an attribute with the given name is present. -/
def hasAttrB : List (String × String) → String → Bool
  | [], _ => false
  | (n, _) :: rest, m => if n = m then true else hasAttrB rest m

/-- Replace the value of every entry named `n` (attribute names are unique in
a parsed DOM, so this is the single update cheerio performs). -/
def setAttrAux (n v : String) : List (String × String) → List (String × String)
  | [] => []
  | (a, b) :: rest =>
    if a = n then (a, v) :: setAttrAux n v rest else (a, b) :: setAttrAux n v rest

/-- cheerio `$(elem).attr(name, value)` : update in place when present,
append otherwise. -/
def setAttr (attrs : List (String × String)) (n v : String) :
    List (String × String) :=
  if hasAttrB attrs n then setAttrAux n v attrs else attrs ++ [(n, v)]

/-- Membership of a string in a list of strings (JS `Array.includes` /
the `forEach` denylists). -/
def memStr : List String → String → Bool
  | [], _ => false
  | x :: xs, s => if x = s then true else memStr xs s

/-! ### The `url(...)` scanner

`parser.js` uses the global regex `/url\(['"]?([^'")\s]+)['"]?\)/g` twice:
on inline `style` attributes containing "background" (`extractAssets`) and on
stylesheet text (`processCSS`).  `cssUrls` returns the captured group of each
successive non-overlapping match, scanning left to right and advancing one
character after a failed match attempt, exactly like the JS regex engine. -/

/-- Greedy run of `[^'")\s]+` characters. -/
def takeClass (cs : List Char) : List Char := cs.takeWhile urlCharOk

/-- Attempt to match `['"]?([^'")\s]+)['"]?\)` (the part after the literal
`url(`).  Returns the captured group and the remainder after the match.
The class excludes quotes and `)`, so no backtracking into the group is
possible: a leading quote must be consumed, the group is the maximal class
run, then an optional quote, then the mandatory `)`. -/
def matchUrlBody (cs : List Char) : Option (List Char × List Char) :=
  match cs with
  | [] => none
  | c :: rest =>
    if c == '\'' || c == '"' then
      let g := takeClass rest
      if g = [] then none
      else
        match rest.drop g.length with
        | q :: r2 =>
          if q == '\'' || q == '"' then
            match r2 with
            | ')' :: r3 => some (g, r3)
            | _ => none
          else if q == ')' then some (g, r2)
          else none
        | [] => none
    else
      let g := takeClass (c :: rest)
      if g = [] then none
      else
        match (c :: rest).drop g.length with
        | q :: r2 =>
          if q == '\'' || q == '"' then
            match r2 with
            | ')' :: r3 => some (g, r3)
            | _ => none
          else if q == ')' then some (g, r2)
          else none
        | [] => none

/-- Fuelled scan for successive `url(...)` matches. -/
def cssUrlsF : Nat → List Char → List (List Char)
  | 0, _ => []
  | _ + 1, [] => []
  | fuel + 1, c :: cs =>
    if listPfx "url(".data (c :: cs) then
      match matchUrlBody ((c :: cs).drop 4) with
      | some (g, rest) => g :: cssUrlsF fuel rest
      | none => cssUrlsF fuel cs
    else cssUrlsF fuel cs

/-- All captured groups of `/url\(['"]?([^'")\s]+)['"]?\)/g` over `s`. -/
def cssUrls (s : String) : List String :=
  (cssUrlsF s.data.length s.data).map (fun l => ⟨l⟩)

/-! ### The `@import` scanner

`extractAssets` first collects the full matches of
`/@import\s+(?:url\()?['"]?([^'")\s]+)['"]?\)?/g` over a `<style>` body, then
for each full match `m` extracts `m.match(/['"]?([^'")\s]+)['"]?/)[1]` — the
group of the *first* match of that second regex inside the matched text. -/

/-- The group of the first match of `['"]?([^'")\s]+)['"]?` in `cs`
(`[]` when there is none; unreachable on the strings the source applies it
to, which always contain class characters). -/
def firstGroup : List Char → List Char
  | [] => []
  | c :: cs =>
    if (c == '\'' || c == '"') && takeClass cs ≠ [] then takeClass cs
    else if urlCharOk c then c :: takeClass cs
    else firstGroup cs

/-- After the literal `@import`: match `\s+(?:url\()?['"]?([^'")\s]+)['"]?\)?`
and return the consumed characters (the tail of the full match).  The
`(?:url\()?` alternative is tried with `url(` consumed first and falls back
to not consuming it (the `(` is a class character, so the fallback can
succeed where the first attempt fails). -/
def importTailBody (r : List Char) : Option (List Char) :=
  match r with
  | q :: rr =>
    if q == '\'' || q == '"' then
      let g := takeClass rr
      if g = [] then none
      else
        let after := rr.drop g.length
        match after with
        | q2 :: r2 =>
          if q2 == '\'' || q2 == '"' then
            match r2 with
            | ')' :: _ => some (q :: g ++ [q2, ')'])
            | _ => some (q :: g ++ [q2])
          else if q2 == ')' then some (q :: g ++ [')'])
          else some (q :: g)
        | [] => some (q :: g)
    else
      let g := takeClass r
      if g = [] then none
      else
        let after := r.drop g.length
        match after with
        | q2 :: r2 =>
          if q2 == '\'' || q2 == '"' then
            match r2 with
            | ')' :: _ => some (g ++ [q2, ')'])
            | _ => some (g ++ [q2])
          else if q2 == ')' then some (g ++ [')'])
          else some g
        | [] => some g
  | [] => none

/-- Match `\s+(?:url\()?['"]?([^'")\s]+)['"]?\)?` after `@import`. -/
def importTail (cs : List Char) : Option (List Char) :=
  let ws := cs.takeWhile isSpaceChar
  if ws = [] then none
  else
    let r := cs.drop ws.length
    if listPfx "url(".data r then
      match importTailBody (r.drop 4) with
      | some t => some (ws ++ "url(".data ++ t)
      | none =>
        match importTailBody r with
        | some t => some (ws ++ t)
        | none => none
    else
      match importTailBody r with
      | some t => some (ws ++ t)
      | none => none

/-- Fuelled scan for successive full matches of the `@import` regex. -/
def importScanF : Nat → List Char → List (List Char)
  | 0, _ => []
  | _ + 1, [] => []
  | fuel + 1, c :: cs =>
    if listPfx "@import".data (c :: cs) then
      match importTail ((c :: cs).drop 7) with
      | some t => ("@import".data ++ t) :: importScanF fuel ((c :: cs).drop (7 + t.length))
      | none => importScanF fuel cs
    else importScanF fuel cs

/-- All full matches of `/@import\s+(?:url\()?['"]?([^'")\s]+)['"]?\)?/g`. -/
def importScan (s : String) : List String :=
  (importScanF s.data.length s.data).map (fun l => ⟨l⟩)

/-- The reference text the source extracts from one `@import` full match:
`match.match(/['"]?([^'")\s]+)['"]?/)[1]`. -/
def importRefText (m : String) : String := ⟨firstGroup m.data⟩

/-! ### The URL library and `Parser.resolveUrl`

`resolveUrl` calls `new URL(baseUrl).protocol` (protocol-relative branch) and
`new URL(url, baseUrl).href` (relative branch).  Both are Node's WHATWG URL
library, external to the repository; they are passed in as `UrlLib`, with
`none` modelling a thrown `TypeError` (caught by `resolveUrl`'s
`try`/`catch`, which returns the input unchanged). -/

structure UrlLib where
  /-- `new URL(base).protocol` — `some "https:"` etc., `none` = ctor throws. -/
  proto : String → Option String
  /-- `new URL(url, base).href` — `none` = ctor throws. -/
  res : String → String → Option String

/-- `Parser.resolveUrl(url, baseUrl)` (parser.js, lines 54–78). -/
def resolveUrl (L : UrlLib) (url baseUrl : String) : String :=
  if strStarts url "//" then
    match L.proto baseUrl with
    | some p => p ++ url
    | none => url
  else if strStarts url "http://" || strStarts url "https://" then url
  else if strStarts url "data:" then url
  else
    match L.res url baseUrl with
    | some h => h
    | none => url

/-- Scheme characters of an absolute URL (letters, digits, `+`, `-`, `.`). -/
def schemeCharOk (c : Char) : Bool :=
  c.isAlpha || c.isDigit || c == '+' || c == '-' || c == '.'

/-- A concrete model of `new URL(base).protocol`: the (lowercased) scheme of
`base` followed by `:`.  It agrees with the WHATWG library on every base URL
a concrete theorem below evaluates it at (well-formed `http:`/`https:`
bases). -/
def protoImpl (s : String) : Option String :=
  let sch := s.data.takeWhile (fun c => c ≠ ':')
  if !sch.isEmpty && decide (sch.length < s.data.length) && sch.all schemeCharOk
      && (match sch with | c :: _ => c.isAlpha | [] => false) then
    some ⟨(sch.map Char.toLower) ++ [':']⟩
  else none

/-- The concrete `UrlLib` used by the witnesses and counterexamples.  The
relative-resolution branch is `none` ("throws"); no concrete input below ever
reaches that branch (they use protocol-relative, absolute or `data:`
references only), so its value is irrelevant to every concrete evaluation. -/
def urlLibC : UrlLib := ⟨protoImpl, fun _ _ => none⟩

/-! ### The DOM model

A parsed document (the cheerio `$`) is a forest of nodes.  Elements carry a
tag name, an ordered attribute list and children; text nodes carry their
text.  cheerio selections (`$('img[src]')`, `$('*')`, …) iterate in document
order and apply local mutations; they are modelled as structural maps /
collectors over this tree. -/

mutual
inductive Node where
  | text (s : String) : Node
  | elem (tag : String) (attrs : List (String × String)) (children : NodeList) : Node
inductive NodeList where
  | nil : NodeList
  | cons (hd : Node) (tl : NodeList) : NodeList
end

/-- Concatenation of node lists. -/
def appendNL : NodeList → NodeList → NodeList
  | .nil, ys => ys
  | .cons x xs, ys => .cons x (appendNL xs ys)

/-- Emptiness test. -/
def NodeList.isNil : NodeList → Bool
  | .nil => true
  | .cons _ _ => false

/-! #### Generic collectors and element-wise transforms -/

mutual
/-- Every element of the tree (tag, attrs) satisfies `P`
(text nodes are ignored). -/
def allElemsN (P : String → List (String × String) → Bool) : Node → Bool
  | .text _ => true
  | .elem t a cs => P t a && allElemsL P cs
def allElemsL (P : String → List (String × String) → Bool) : NodeList → Bool
  | .nil => true
  | .cons n ns => allElemsN P n && allElemsL P ns
end

mutual
/-- Apply an attribute transform `f tag attrs` to every element, keeping the
tree's shape.  Each attribute pass of the source (`removeAttr` sweeps, form
disabling, control disabling, `src`/`style` rewriting) is an instance. -/
def mapAttrsN (f : String → List (String × String) → List (String × String)) :
    Node → Node
  | .text s => .text s
  | .elem t a cs => .elem t (f t a) (mapAttrsL f cs)
def mapAttrsL (f : String → List (String × String) → List (String × String)) :
    NodeList → NodeList
  | .nil => .nil
  | .cons n ns => .cons (mapAttrsN f n) (mapAttrsL f ns)
end

mutual
/-- Number of elements with the given tag. -/
def countTagN (t : String) : Node → Nat
  | .text _ => 0
  | .elem tg _ cs => (if tg = t then 1 else 0) + countTagL t cs
def countTagL (t : String) : NodeList → Nat
  | .nil => 0
  | .cons n ns => countTagN t n + countTagL t ns
end

mutual
/-- The `src` attribute values of all `img` elements, in document order
(the list `$('img[src]')` iterates, by value). -/
def imgSrcN : Node → List String
  | .text _ => []
  | .elem t a cs =>
    (if t = "img" then
      match alookup a "src" with
      | some s => [s]
      | none => []
     else []) ++ imgSrcL cs
def imgSrcL : NodeList → List String
  | .nil => []
  | .cons n ns => imgSrcN n ++ imgSrcL ns
end

/-- The concatenated text of the immediate text children of an element
(`$(elem).html()` of a `<style>` block, whose children are text). -/
def textOfChildren : NodeList → String
  | .nil => ""
  | .cons (.text s) ns => s ++ textOfChildren ns
  | .cons (.elem _ _ _) ns => textOfChildren ns

mutual
/-- Stylesheet view of a tree: one `Sum.inl href?` per
`<link rel="stylesheet">` and one `Sum.inr cssText` per
`<style type="text/css">`, in document order. -/
def sheetViewN : Node → List (Option String ⊕ String)
  | .text _ => []
  | .elem t a cs =>
    (if t = "link" ∧ alookup a "rel" = some "stylesheet" then
      [Sum.inl (alookup a "href")]
     else if t = "style" ∧ alookup a "type" = some "text/css" then
      [Sum.inr (textOfChildren cs)]
     else []) ++ sheetViewL cs
def sheetViewL : NodeList → List (Option String ⊕ String)
  | .nil => []
  | .cons n ns => sheetViewN n ++ sheetViewL ns
end

mutual
/-- Every `link` element is childless (true of any document produced by an
HTML parser: `link` is a void element). -/
def linksChildlessN : Node → Bool
  | .text _ => true
  | .elem t _ cs => (!(t = "link") || cs.isNil) && linksChildlessL cs
def linksChildlessL : NodeList → Bool
  | .nil => true
  | .cons n ns => linksChildlessN n && linksChildlessL ns
end

/-! ### `Parser.stripUnsafeContent` (parser.js, lines 161–186) -/

/-- `this.STRIP_TAGS` — tags removed entirely. -/
def STRIP_TAGS : List String := ["script", "noscript", "iframe", "object", "embed"]

/-- `this.STRIP_ATTRIBUTES` — the event-handler attribute denylist. -/
def STRIP_ATTRIBUTES : List String :=
  ["onload", "onerror", "onclick", "onmouseover", "onmouseout",
   "onchange", "onsubmit", "onfocus", "onblur"]

mutual
/-- `$(tag).remove()` — delete every element with this tag, subtree
included. -/
def removeTagN (t : String) : Node → Option Node
  | .text s => some (.text s)
  | .elem tg a cs => if tg = t then none else some (.elem tg a (removeTagL t cs))
def removeTagL (t : String) : NodeList → NodeList
  | .nil => .nil
  | .cons n ns =>
    match removeTagN t n with
    | none => removeTagL t ns
    | some n2 => .cons n2 (removeTagL t ns)
end

/-- `this.STRIP_TAGS.forEach(tag => $(tag).remove())`. -/
def removeStripTags (doc : NodeList) : NodeList :=
  STRIP_TAGS.foldl (fun d t => removeTagL t d) doc

/-- `this.STRIP_ATTRIBUTES.forEach(attr => $(elem).removeAttr(attr))`. -/
def stripAttrsOf (attrs : List (String × String)) : List (String × String) :=
  STRIP_ATTRIBUTES.foldl (fun a n => removeAttr a n) attrs

/-- The attribute edit of the `$('*').each` sweep. -/
def stripAttrF (_ : String) (a : List (String × String)) : List (String × String) :=
  stripAttrsOf a

/-- The `$('*').each` sweep removing every denylisted attribute. -/
def stripAttrsPass (doc : NodeList) : NodeList :=
  mapAttrsL stripAttrF doc

/-- The attribute edit of the form-disabling sweep:
`attr('onsubmit', 'return false;')` then `removeAttr('action')`. -/
def formAttrF (t : String) (a : List (String × String)) : List (String × String) :=
  if t = "form" then removeAttr (setAttr a "onsubmit" "return false;") "action" else a

/-- `$('form').each`. -/
def disableFormsPass (doc : NodeList) : NodeList :=
  mapAttrsL formAttrF doc

/-- The attribute edit of the control-disabling sweep:
`attr('disabled', 'disabled')`. -/
def inputAttrF (t : String) (a : List (String × String)) : List (String × String) :=
  if t = "input" ∨ t = "textarea" ∨ t = "button" then setAttr a "disabled" "disabled" else a

/-- `$('input, textarea, button').each`. -/
def disableInputsPass (doc : NodeList) : NodeList :=
  mapAttrsL inputAttrF doc

/-- `Parser.stripUnsafeContent($)` : remove unsafe tags, strip the attribute
denylist everywhere, disable forms, disable interactive controls — in that
order. -/
def stripUnsafeContent (doc : NodeList) : NodeList :=
  disableInputsPass (disableFormsPass (stripAttrsPass (removeStripTags doc)))

/-! ### `Parser.rewriteAssets` (parser.js, lines 193–232) -/

/-- The asset map: JS object `{ key: dataUrlOrCss }`, keys unique, insertion
ordered. -/
def AssetMap := List (String × String)

/-- Truthy lookup (`if (assetMap[k]) ...`): present and non-empty. -/
def getTruthy (m : AssetMap) (k : String) : Option String :=
  match alookup m k with
  | some v => if v = "" then none else some v
  | none => none

/-- `Object.keys(assetMap).forEach(originalUrl => style = style.replace(
new RegExp(escaped(originalUrl), 'g'), assetMap[originalUrl]))` — the
background-image substitution over one `style` attribute value. -/
def bgSubst (m : AssetMap) (style : String) : String :=
  m.foldl (fun s kv => strReplaceAll s kv.1 kv.2) style

/-- The attribute edit of pass 1 (`$('img[src]').each`): replace `src` when
the map holds a truthy value under the literal `src` text. -/
def imgAttrF (m : AssetMap) (t : String) (a : List (String × String)) :
    List (String × String) :=
  if t = "img" then
    match alookup a "src" with
    | some s =>
      match getTruthy m s with
      | some v => setAttr a "src" v
      | none => a
    | none => a
  else a

/-- Pass 1. -/
def rwImgPass (m : AssetMap) (doc : NodeList) : NodeList :=
  mapAttrsL (imgAttrF m) doc

/-- The attribute edit of pass 2 (`$('[style*="background"]').each`):
regex-substitute every asset key occurring in the `style` attribute. -/
def bgAttrF (m : AssetMap) (_ : String) (a : List (String × String)) :
    List (String × String) :=
  match alookup a "style" with
  | some st => if strContains st "background" then setAttr a "style" (bgSubst m st) else a
  | none => a

/-- Pass 2. -/
def rwBgPass (m : AssetMap) (doc : NodeList) : NodeList :=
  mapAttrsL (bgAttrF m) doc

/-- Truthiness of an optional string (JS: `undefined` and `""` are falsy). -/
def isTruthyOpt : Option String → Bool
  | some s => !(s = "")
  | none => false

/-- The CSS text pass 3 inlines for one `href`: the literal key first,
falling back to the absolute form only when a (truthy) `baseUrl` argument
was supplied. -/
def linkCssLookup (L : UrlLib) (m : AssetMap) (base : Option String) (href : String) :
    Option String :=
  match getTruthy m href with
  | some css => some css
  | none =>
    if isTruthyOpt base then getTruthy m (resolveUrl L href (base.getD ""))
    else none

mutual
/-- Pass 3 — `$('link[rel="stylesheet"]').each`: when CSS is found for the
link's `href`, `replaceWith('<style type="text/css">' + css + '</style>')`. -/
def rwLinkN (L : UrlLib) (m : AssetMap) (base : Option String) : Node → Node
  | .text s => .text s
  | .elem t a cs =>
    if t = "link" ∧ alookup a "rel" = some "stylesheet" then
      match alookup a "href" with
      | some h =>
        match linkCssLookup L m base h with
        | some css => .elem "style" [("type", "text/css")] (.cons (.text css) .nil)
        | none => .elem t a (rwLinkL L m base cs)
      | none => .elem t a (rwLinkL L m base cs)
    else .elem t a (rwLinkL L m base cs)
def rwLinkL (L : UrlLib) (m : AssetMap) (base : Option String) : NodeList → NodeList
  | .nil => .nil
  | .cons n ns => .cons (rwLinkN L m base n) (rwLinkL L m base ns)
end

/-- `Parser.rewriteAssets($, assetMap, baseUrl)` : the three passes in source
order.  `base = none` models the route's call `rewriteAssets($, map)` where
`baseUrl` is `undefined` (falsy). -/
def rewriteAssets (L : UrlLib) (m : AssetMap) (base : Option String) (doc : NodeList) :
    NodeList :=
  rwLinkL L m base (rwBgPass m (rwImgPass m doc))

/-! ### `Parser.processCSS` (parser.js, lines 237–264) -/

/-- One `urlMatches.forEach` step of `Parser.processCSS`: skip `data:`,
resolve to absolute, and substitute the literal group text globally —
preferring the absolute key, falling back to the literal key. -/
def processCSSStep (L : UrlLib) (baseUrl : String) (m : AssetMap)
    (acc : String) (u : String) : String :=
  if strStarts u "data:" then acc
  else
    let absU := resolveUrl L u baseUrl
    match getTruthy m absU with
    | some v => strReplaceAll acc u v
    | none =>
      match getTruthy m u with
      | some v => strReplaceAll acc u v
      | none => acc

/-- `Parser.processCSS(css, baseUrl, assetMap)` : fold the substitution step
over the `url(...)` groups of the original text, in match order. -/
def processCSS (L : UrlLib) (css : String) (baseUrl : String) (m : AssetMap) : String :=
  (cssUrls css).foldl (processCSSStep L baseUrl m) css

/-! ### `Parser.addReplicaBanner` (parser.js, lines 270–294) -/

/-- The style attribute of the banner `<div>` (whitespace of the template
literal normalised to single spaces). -/
def bannerStyle : String :=
  "position: fixed; top: 0; left: 0; right: 0; " ++
  "background: linear-gradient(135deg, #1a1a2e 0%, #16213e 100%); " ++
  "color: #f4a261; padding: 8px 16px; text-align: center; " ++
  "font-family: 'Courier New', monospace; font-size: 12px; " ++
  "border-bottom: 2px solid #f4a261; z-index: 999999; " ++
  "box-shadow: 0 2px 8px rgba(0,0,0,0.3);"

/-- The two `<div>`s the banner markup parses to. -/
def bannerNodes : NodeList :=
  .cons
    (.elem "div" [("style", bannerStyle)]
      (.cons (.text "⚓ REPLICATED SITE • Original interactivity disabled • For preview purposes only ⚓") .nil))
    (.cons (.elem "div" [("style", "height: 36px;")] .nil) .nil)

mutual
/-- `$('body').prepend(banner)`. -/
def addBannerN : Node → Node
  | .text s => .text s
  | .elem t a cs =>
    .elem t a (if t = "body" then appendNL bannerNodes (addBannerL cs) else addBannerL cs)
def addBannerL : NodeList → NodeList
  | .nil => .nil
  | .cons n ns => .cons (addBannerN n) (addBannerL ns)
end

/-- `Parser.addReplicaBanner($)`. -/
def addReplicaBanner (doc : NodeList) : NodeList := addBannerL doc

/-! ### `Parser.extractAssets` (parser.js, lines 84–154) -/

/-- One discovered asset reference: the literal attribute/CSS text and its
resolved absolute form. -/
structure AssetRef where
  original : String
  absolute : String
deriving DecidableEq, Repr

/-- The `{ images, stylesheets }` result (the unused `fonts` array is
omitted). -/
structure Assets where
  images : List AssetRef
  stylesheets : List AssetRef
deriving DecidableEq, Repr

mutual
/-- `$('img[src]').each` : one Image reference per `img` whose `src` is
truthy and not `data:`. -/
def imgRefsN (L : UrlLib) (base : String) : Node → List AssetRef
  | .text _ => []
  | .elem t a cs =>
    (if t = "img" then
      match alookup a "src" with
      | some s =>
        if !(s = "") && !strStarts s "data:" then [⟨s, resolveUrl L s base⟩] else []
      | none => []
     else []) ++ imgRefsL L base cs
def imgRefsL (L : UrlLib) (base : String) : NodeList → List AssetRef
  | .nil => []
  | .cons n ns => imgRefsN L base n ++ imgRefsL L base ns
end

mutual
/-- `$('[style*="background"]').each` : one Image reference per non-`data:`
`url(...)` group in a `style` attribute containing "background". -/
def bgRefsN (L : UrlLib) (base : String) : Node → List AssetRef
  | .text _ => []
  | .elem _ a cs =>
    (match alookup a "style" with
     | some st =>
       if strContains st "background" then
         (cssUrls st).filterMap
           (fun u => if strStarts u "data:" then none else some ⟨u, resolveUrl L u base⟩)
       else []
     | none => []) ++ bgRefsL L base cs
def bgRefsL (L : UrlLib) (base : String) : NodeList → List AssetRef
  | .nil => []
  | .cons n ns => bgRefsN L base n ++ bgRefsL L base ns
end

mutual
/-- `$('link[rel="stylesheet"]').each` : one Stylesheet reference per link
whose `href` is truthy and not `data:`. -/
def linkRefsN (L : UrlLib) (base : String) : Node → List AssetRef
  | .text _ => []
  | .elem t a cs =>
    (if t = "link" ∧ alookup a "rel" = some "stylesheet" then
      match alookup a "href" with
      | some h =>
        if !(h = "") && !strStarts h "data:" then [⟨h, resolveUrl L h base⟩] else []
      | none => []
     else []) ++ linkRefsL L base cs
def linkRefsL (L : UrlLib) (base : String) : NodeList → List AssetRef
  | .nil => []
  | .cons n ns => linkRefsN L base n ++ linkRefsL L base ns
end

mutual
/-- `$('style').each` : one Stylesheet reference per `@import` full match in
the block's text, the reference text extracted as the source does
(`match.match(/['"]?([^'")\s]+)['"]?/)[1]`), skipping `data:`. -/
def importRefsN (L : UrlLib) (base : String) : Node → List AssetRef
  | .text _ => []
  | .elem t _ cs =>
    (if t = "style" then
      (importScan (textOfChildren cs)).filterMap
        (fun mt =>
          let u := importRefText mt
          if strStarts u "data:" then none else some ⟨u, resolveUrl L u base⟩)
     else []) ++ importRefsL L base cs
def importRefsL (L : UrlLib) (base : String) : NodeList → List AssetRef
  | .nil => []
  | .cons n ns => importRefsN L base n ++ importRefsL L base ns
end

/-- `Parser.extractAssets($, baseUrl)` : images (tag sources, then inline
backgrounds), stylesheets (links, then `@import`s), in source push order. -/
def extractAssets (L : UrlLib) (doc : NodeList) (base : String) : Assets :=
  ⟨imgRefsL L base doc ++ bgRefsL L base doc,
   linkRefsL L base doc ++ importRefsL L base doc⟩

/-! ### `Storage` (storage.js) -/

/-- The process-wide store: `Map sessionId → Map originalUrl → dataUrl`,
insertion ordered. -/
def Store := List (String × AssetMap)

/-- The store before any job ran. -/
def emptyStore : Store := []

/-- `Storage.storeAsset(sessionId, originalUrl, dataUrl)` : create the
session map if absent, then `set` the key (update in place or append —
`setAttr` is exactly a JS `Map.set`/object property write on an ordered
association list). -/
def storeAsset : Store → String → String → String → Store
  | [], sid, k, v => [(sid, setAttr [] k v)]
  | (s, m) :: rest, sid, k, v =>
    if s = sid then (s, setAttr m k v) :: rest
    else (s, m) :: storeAsset rest sid k v

/-- `Storage.getAssetMap(sessionId)` : the session's key/value snapshot,
`{}` when the session is absent. -/
def getAssetMap : Store → String → AssetMap
  | [], _ => []
  | (s, m) :: rest, sid => if s = sid then m else getAssetMap rest sid

/-- `Storage.clearSession(sessionId)`. -/
def clearSession (st : Store) (sid : String) : Store :=
  st.filter (fun e => e.1 ≠ sid)

/-- One `storeAsset` call, for reasoning about call sequences. -/
structure StoreOp where
  sid : String
  key : String
  val : String

/-- Apply a sequence of `storeAsset` calls, first to last. -/
def applyOps : List StoreOp → Store → Store
  | [], st => st
  | op :: rest, st => applyOps rest (storeAsset st op.sid op.key op.val)

/-! ### `Fetcher.checkRobots` / `Fetcher.fetchHTML` (parser.js, lines 712–778)

The robots.txt retrieval is an `Option (status, body)` (`none` = network
error, i.e. `axios.get` threw; a status `≥ 500` also throws because of
`validateStatus: s => s < 500`).  The `robots-parser` library's
`isAllowed(url, userAgent)` verdict on a given body is the oracle
`isAllowedO` (`false` = a disallow rule matches the target path and user
agent). -/

/-- `Fetcher.checkRobots(url)`. -/
def checkRobots (robotsResp : Option (Nat × String)) (isAllowedO : String → Bool) : Bool :=
  match robotsResp with
  | none => true
  | some (status, body) =>
    if 500 ≤ status then true
    else if status = 200 then isAllowedO body
    else true

/-- The failure modes of the page fetch (`axios.get` of the page). -/
inductive FetchErr where
  | timeout
  | notFound
  | forbidden
  | generic (msg : String)
deriving DecidableEq, Repr

/-- The error message `fetchHTML`'s catch block produces for each failure.
A robots block is thrown inside the same `try`, so it reaches the caller
through the generic branch as
`"Failed to fetch HTML: Blocked by robots.txt"`. -/
def fetchErrMsg : FetchErr → String
  | .timeout => "Request timeout - site took too long to respond"
  | .notFound => "Page not found (404)"
  | .forbidden => "Access forbidden (403)"
  | .generic m => "Failed to fetch HTML: " ++ m

/-- `Fetcher.fetchHTML(url)` : consult the policy gate, then perform the page
fetch (`pageResp`, an `(html, finalUrl)` pair on success). -/
def fetchHTML (robotsResp : Option (Nat × String)) (isAllowedO : String → Bool)
    (pageResp : Except FetchErr (String × String)) : Except String (String × String) :=
  if checkRobots robotsResp isAllowedO = false then
    .error (fetchErrMsg (.generic "Blocked by robots.txt"))
  else
    match pageResp with
    | .ok p => .ok p
    | .error e => .error (fetchErrMsg e)

/-- The spec's wording of the policy gate, for comparison with the code:
"a successful retrieval with a disallow rule matching the target path and
user agent blocks the fetch"; "absence of the policy resource (404, fetch
error, malformed content) is treated as implicit permission". -/
def robotsBlockedSpec (robotsResp : Option (Nat × String)) (isAllowedO : String → Bool) :
    Bool :=
  match robotsResp with
  | some (status, body) => status == 200 && !isAllowedO body
  | none => false

/-! ### The `/replicate` route (the orchestrator)

`fetchCSS(url, referer)` and `fetchImage(url, referer)` never throw; they
return the text / data URL or `null`.  They are the deterministic oracles
`cssO`/`imgO : String → Option String`, keyed by the absolute URL the route
passes them.  `Promise.all` batches only schedule these calls; the stored
outcome per key is oracle-determined, so the batches are modelled as a fold
in list order. -/

/-- One stylesheet-fetch step of `replicate` (step 3): on a truthy result,
store the CSS under the literal key then the absolute key. -/
def sheetStoreStep (cssO : String → Option String) (sid : String)
    (st : Store) (sheet : AssetRef) : Store :=
  match cssO sheet.absolute with
  | some css =>
    if css = "" then st
    else storeAsset (storeAsset st sid sheet.original css) sid sheet.absolute css
  | none => st

/-- One image-fetch step of `replicate` (step 4): on a truthy data URL,
store it under the literal key then the absolute key. -/
def imgStoreStep (imgO : String → Option String) (sid : String)
    (st : Store) (img : AssetRef) : Store :=
  match imgO img.absolute with
  | some d =>
    if d = "" then st
    else storeAsset (storeAsset st sid img.original d) sid img.absolute d
  | none => st

/-- Steps 3–4 of `replicate`: fetch every stylesheet, then every image
(batched), storing each success under its literal and absolute key. -/
def jobStore (L : UrlLib) (doc : NodeList) (base : String)
    (cssO imgO : String → Option String) (sid : String) (st0 : Store) : Store :=
  let A := extractAssets L doc base
  A.images.foldl (imgStoreStep imgO sid)
    (A.stylesheets.foldl (sheetStoreStep cssO sid) st0)

/-- Step 5a: `storage.getAssetMap(sessionId)` after the fetch phase. -/
def jobAssetMap (L : UrlLib) (doc : NodeList) (base : String)
    (cssO imgO : String → Option String) (sid : String) (st0 : Store) : AssetMap :=
  getAssetMap (jobStore L doc base cssO imgO sid st0) sid

/-- One step of `replicate`'s step 5b, per stylesheet reference: look the
CSS up by `assetMap[sheet.original] || assetMap[sheet.absolute]`, process
it with `processCSS` when it contains `url(`, and store the result under
both keys. -/
def processStep (L : UrlLib) (base : String) (am : AssetMap)
    (pm : AssetMap) (sheet : AssetRef) : AssetMap :=
  match
    (match getTruthy am sheet.original with
     | some c => some c
     | none => getTruthy am sheet.absolute) with
  | some css =>
    let p := if strContains css "url(" then processCSS L css base am else css
    setAttr (setAttr pm sheet.original p) sheet.absolute p
  | none => pm

/-- Step 5b: `{...assetMap}` then fold the processing step over the
stylesheet references. -/
def jobProcessedMap (L : UrlLib) (doc : NodeList) (base : String)
    (cssO imgO : String → Option String) (sid : String) (st0 : Store) : AssetMap :=
  let A := extractAssets L doc base
  let am := jobAssetMap L doc base cssO imgO sid st0
  A.stylesheets.foldl (processStep L base am) am

/-- The `stats` object of a successful response. -/
structure Stats where
  images : Nat
  totalImages : Nat
  stylesheets : Nat
deriving DecidableEq, Repr

/-- A successful `/replicate` response body. -/
structure RepResult where
  success : Bool
  html : NodeList
  stats : Stats

/-- `imageResults.filter(r => r.success).length`. -/
def successfulImages (imgO : String → Option String) (A : Assets) : Nat :=
  (A.images.filter (fun i => isTruthyOpt (imgO i.absolute))).length

/-- Steps 2–6 of `replicate`, after `fetchHTML` succeeded: extract, fetch and
store assets, build the processed map, then
`stripUnsafeContent; rewriteAssets($, processedAssetMap); addReplicaBanner`
(note: the route passes no `baseUrl` to `rewriteAssets`).  Returns the
response and the store as left by the fetch phase (cleanup is the
handler's). -/
def replicateJob (L : UrlLib) (doc : NodeList) (base : String)
    (cssO imgO : String → Option String) (sid : String) (st0 : Store) :
    RepResult × Store :=
  let A := extractAssets L doc base
  let st := jobStore L doc base cssO imgO sid st0
  let pmap := jobProcessedMap L doc base cssO imgO sid st0
  let html := addReplicaBanner (rewriteAssets L pmap none (stripUnsafeContent doc))
  (⟨true, html, ⟨successfulImages imgO A, A.images.length, A.stylesheets.length⟩⟩, st)

/-- The three response shapes of the route. -/
inductive RepOutcome where
  | clientError (msg : String)
  | serverError (msg : String)
  | ok (r : RepResult)

/-- The whole `replicate(req, res)` handler: input validation, then the job
inside `try`/`catch`, with `storage.clearSession(sessionId)` on both exits.
`pageO` is the `fetchHTML` outcome (its `.ok` carries `(finalUrl, parsedDoc)`),
`validUrlO` whether `new URL(url)` succeeds.  The third component counts the
`clearSession` calls made. -/
def replicateHandler (L : UrlLib) (urlBody : Option String) (validUrlO : String → Bool)
    (pageO : Except String (String × NodeList)) (cssO imgO : String → Option String)
    (sid : String) (st0 : Store) : RepOutcome × Store × Nat :=
  match urlBody with
  | none => (.clientError "URL is required", st0, 0)
  | some u =>
    if u = "" then (.clientError "URL is required", st0, 0)
    else if validUrlO u = false then (.clientError "Invalid URL format", st0, 0)
    else
      match pageO with
      | .error e => (.serverError e, clearSession st0 sid, 1)
      | .ok (finalUrl, doc) =>
        let jr := replicateJob L doc finalUrl cssO imgO sid st0
        (.ok jr.1, clearSession jr.2 sid, 1)

/-! ### Derived views and predicates used by the claim statements -/

/-- The substitution pass 1 applies to one `img` `src` value: the stored
truthy value under the literal text, or the unchanged text. -/
def imgSubst (m : AssetMap) (s : String) : String :=
  (getTruthy m s).getD s

/-- How pass 3 transforms one entry of the stylesheet view: a stylesheet
link's `href` becomes an inline `<style>`'s CSS exactly when
`linkCssLookup` finds it; everything else is untouched. -/
def linkViewF (L : UrlLib) (m : AssetMap) (base : Option String) :
    (Option String ⊕ String) → (Option String ⊕ String)
  | .inl none => .inl none
  | .inl (some h) =>
    match linkCssLookup L m base h with
    | some css => .inr css
    | none => .inl (some h)
  | .inr c => .inr c

/-- An attribute is acceptable after sanitisation: not on the denylist, or
the `onsubmit="return false;"` the form-disabling step itself installs. -/
def denyOk (t : String) (x : String × String) : Bool :=
  !memStr STRIP_ATTRIBUTES x.1 || (t = "form" && x.1 = "onsubmit" && x.2 = "return false;")

/-- The sanitised-element predicate of claim C1 (as amended): no `script`
element, no denylisted attribute beyond the installed `onsubmit`, and no
`action` on forms. -/
def sanOk (t : String) (a : List (String × String)) : Bool :=
  !(t = "script") && a.all (denyOk t) && (!(t = "form") || (alookup a "action").isNone)

/-- Claim C5's form condition: every form carries
`onsubmit="return false;"` and no `action`. -/
def formOk (t : String) (a : List (String × String)) : Bool :=
  !(t = "form") ||
    ((alookup a "onsubmit" == some "return false;") && (alookup a "action").isNone)

/-- Claim C5's control condition: every `input`/`textarea`/`button` carries
`disabled="disabled"`. -/
def inputOk (t : String) (a : List (String × String)) : Bool :=
  !(t = "input" || t = "textarea" || t = "button") ||
    (alookup a "disabled" == some "disabled")

/-- No element of the tree has a tag on the removal denylist (documents
whose extraction-visible content survives sanitisation untouched). -/
def noStripTagsL (l : NodeList) : Bool :=
  allElemsL (fun tg _ => !memStr STRIP_TAGS tg) l

/-! ### Concrete instances for counterexamples and witnesses -/

/-- A document containing a `<script>`, an `onclick` handler and a
`<form action="...">` — the premise of claim C1. -/
def docC1 : NodeList :=
  .cons (.elem "script" [] (.cons (.text "alert(1)") .nil))
  (.cons (.elem "div" [("onclick", "go()")] .nil)
  (.cons (.elem "form" [("action", "/submit")] .nil) .nil))

/-- A document with one image whose `src` is protocol-relative, so its
literal and absolute forms differ. -/
def docC2 : NodeList := .cons (.elem "img" [("src", "//x.com/a.png")] .nil) .nil

/-- An asset map holding the image of `docC2` under its absolute key only. -/
def mapC2 : AssetMap := [("https://x.com/a.png", "data:image/png;base64,AA")]

/-- A document whose single image reference textually coincides with its
single stylesheet reference. -/
def docC3 : NodeList :=
  .cons (.elem "img" [("src", "http://x.com/a.css")] .nil)
  (.cons (.elem "link" [("rel", "stylesheet"), ("href", "http://x.com/a.css")] .nil) .nil)

/-- A CSS fetch oracle: the shared URL of `docC3` fetches successfully. -/
def cssO3 : String → Option String :=
  fun u => if u = "http://x.com/a.css" then some "bodycolorred" else none

/-- An image fetch oracle on which every image fetch fails. -/
def imgOfail : String → Option String := fun _ => none

/-- A small document with one image and one stylesheet link, used by the
witnesses of the universally quantified claims. -/
def docW : NodeList :=
  .cons (.elem "body" []
    (.cons (.elem "img" [("src", "http://w.com/i.png")] .nil)
    (.cons (.elem "link" [("rel", "stylesheet"), ("href", "http://w.com/s.css")] .nil)
    (.cons (.elem "form" [("action", "/f"), ("onsubmit", "evil()")] .nil)
    (.cons (.elem "input" [("type", "text")] .nil) .nil))))) .nil

/-- A document whose references are all `data:`-scheme: an inline image, a
background style and a stylesheet `@import` of a data URL. -/
def docC9 : NodeList :=
  .cons (.elem "img" [("src", "data:image/gif;base64,R0")] .nil)
  (.cons (.elem "div" [("style", "background: url(data:image/png;base64,AA)")] .nil)
  (.cons (.elem "link" [("rel", "stylesheet"), ("href", "data:text/css,p")] .nil)
  (.cons (.elem "style" [] (.cons (.text "@import url(x.css);") .nil)) .nil)))

/-- A CSS oracle for `docW`: its stylesheet fetch succeeds. -/
def cssOW : String → Option String :=
  fun u => if u = "http://w.com/s.css" then some "p color:red" else none

/-- An image oracle for `docW`: its image fetch succeeds. -/
def imgOW : String → Option String :=
  fun u => if u = "http://w.com/i.png" then some "data:image/png;base64,BB" else none

/-! ## Lemmas

### Attribute-list facts -/

theorem mem_removeAttr (a : List (String × String)) (n : String)
    (x : String × String) (h : x ∈ removeAttr a n) : x ∈ a ∧ x.1 ≠ n := by
  induction a with
  | nil => cases h
  | cons p rest ih =>
    by_cases hp : p.1 = n
    · rw [removeAttr, if_pos hp] at h
      exact ⟨List.mem_cons_of_mem p (ih h).1, (ih h).2⟩
    · rw [removeAttr, if_neg hp] at h
      rcases List.mem_cons.mp h with he | ht
      · exact ⟨List.mem_cons.mpr (Or.inl he), he ▸ hp⟩
      · exact ⟨List.mem_cons_of_mem p (ih ht).1, (ih ht).2⟩

theorem alookup_removeAttr_self (a : List (String × String)) (n : String) :
    alookup (removeAttr a n) n = none := by
  induction a with
  | nil => rfl
  | cons p rest ih =>
    by_cases hp : p.1 = n
    · rw [removeAttr, if_pos hp]; exact ih
    · rw [removeAttr, if_neg hp]
      cases p with
      | mk x y =>
        rw [alookup, if_neg hp]
        exact ih

theorem alookup_removeAttr_ne (a : List (String × String)) (n m : String) (h : m ≠ n) :
    alookup (removeAttr a n) m = alookup a m := by
  induction a with
  | nil => rfl
  | cons p rest ih =>
    cases p with
    | mk x y =>
      by_cases hp : x = n
      · have hxm : ¬(x = m) := fun e => h (e ▸ hp)
        rw [removeAttr, if_pos hp, alookup, if_neg hxm]
        exact ih
      · by_cases hm : x = m
        · rw [removeAttr, if_neg hp, alookup, if_pos hm, alookup, if_pos hm]
        · rw [removeAttr, if_neg hp, alookup, if_neg hm, alookup, if_neg hm]
          exact ih

theorem hasAttrB_false_alookup (a : List (String × String)) (n : String)
    (h : hasAttrB a n = false) : alookup a n = none := by
  induction a with
  | nil => rfl
  | cons p rest ih =>
    cases p with
    | mk x y =>
      by_cases hp : x = n
      · rw [hasAttrB, if_pos hp] at h; cases h
      · rw [hasAttrB, if_neg hp] at h
        rw [alookup, if_neg hp]
        exact ih h

theorem alookup_setAttrAux_self (a : List (String × String)) (n v : String)
    (h : hasAttrB a n = true) : alookup (setAttrAux n v a) n = some v := by
  induction a with
  | nil => cases h
  | cons p rest ih =>
    cases p with
    | mk x y =>
      by_cases hp : x = n
      · rw [setAttrAux, if_pos hp, alookup, if_pos hp]
      · rw [hasAttrB, if_neg hp] at h
        rw [setAttrAux, if_neg hp, alookup, if_neg hp]
        exact ih h

theorem alookup_setAttrAux_ne (a : List (String × String)) (n v m : String) (h : m ≠ n) :
    alookup (setAttrAux n v a) m = alookup a m := by
  induction a with
  | nil => rfl
  | cons p rest ih =>
    cases p with
    | mk x y =>
      by_cases hp : x = n
      · have hxm : ¬(x = m) := fun e => h (e ▸ hp)
        rw [setAttrAux, if_pos hp, alookup, if_neg (hp ▸ hxm), alookup, if_neg hxm]
        exact ih
      · by_cases hm : x = m
        · rw [setAttrAux, if_neg hp, alookup, if_pos hm, alookup, if_pos hm]
        · rw [setAttrAux, if_neg hp, alookup, if_neg hm, alookup, if_neg hm]
          exact ih

theorem alookup_append_of_none (a b : List (String × String)) (m : String)
    (h : alookup a m = none) : alookup (a ++ b) m = alookup b m := by
  induction a with
  | nil => rfl
  | cons p rest ih =>
    cases p with
    | mk x y =>
      by_cases hp : x = m
      · rw [alookup, if_pos hp] at h; cases h
      · rw [alookup, if_neg hp] at h
        rw [List.cons_append, alookup, if_neg hp]
        exact ih h

theorem alookup_setAttr_self (a : List (String × String)) (n v : String) :
    alookup (setAttr a n v) n = some v := by
  rw [setAttr]
  cases hb : hasAttrB a n with
  | true =>
    rw [if_pos rfl]
    exact alookup_setAttrAux_self a n v hb
  | false =>
    rw [if_neg (by simp)]
    rw [alookup_append_of_none a [(n, v)] n (hasAttrB_false_alookup a n hb)]
    rw [alookup, if_pos rfl]

theorem alookup_setAttr_ne (a : List (String × String)) (n v m : String) (h : m ≠ n) :
    alookup (setAttr a n v) m = alookup a m := by
  rw [setAttr]
  cases hb : hasAttrB a n with
  | true =>
    rw [if_pos rfl]
    exact alookup_setAttrAux_ne a n v m h
  | false =>
    rw [if_neg (by simp)]
    induction a with
    | nil =>
      simp only [List.nil_append, alookup]
      rw [if_neg (fun e => h e.symm)]
    | cons p rest ih =>
      cases p with
      | mk x y =>
        rw [hasAttrB] at hb
        by_cases hp : x = n
        · rw [if_pos hp] at hb; cases hb
        · rw [if_neg hp] at hb
          by_cases hm : x = m
          · rw [List.cons_append, alookup, if_pos hm, alookup, if_pos hm]
          · rw [List.cons_append, alookup, if_neg hm, alookup, if_neg hm]
            exact ih hb

theorem all_of_mem_imp (a : List (String × String)) (P : String × String → Bool)
    (h : ∀ x, x ∈ a → P x = true) : a.all P = true :=
  List.all_eq_true.mpr h

theorem mem_of_all (a : List (String × String)) (P : String × String → Bool)
    (h : a.all P = true) (x : String × String) (hx : x ∈ a) : P x = true :=
  List.all_eq_true.mp h x hx

theorem all_removeAttr (a : List (String × String)) (n : String)
    (P : String × String → Bool) (h : a.all P = true) :
    (removeAttr a n).all P = true :=
  all_of_mem_imp _ P (fun x hx => mem_of_all a P h x (mem_removeAttr a n x hx).1)

theorem mem_setAttrAux (a : List (String × String)) (n v : String)
    (x : String × String) (h : x ∈ setAttrAux n v a) : x ∈ a ∨ x = (n, v) := by
  induction a with
  | nil => cases h
  | cons p rest ih =>
    cases p with
    | mk c d =>
      by_cases hp : c = n
      · rw [setAttrAux, if_pos hp] at h
        rcases List.mem_cons.mp h with he | ht
        · right; rw [he, hp]
        · rcases ih ht with h1 | h2
          · exact Or.inl (List.mem_cons_of_mem _ h1)
          · exact Or.inr h2
      · rw [setAttrAux, if_neg hp] at h
        rcases List.mem_cons.mp h with he | ht
        · exact Or.inl (List.mem_cons.mpr (Or.inl he))
        · rcases ih ht with h1 | h2
          · exact Or.inl (List.mem_cons_of_mem _ h1)
          · exact Or.inr h2

theorem mem_setAttr (a : List (String × String)) (n v : String)
    (x : String × String) (h : x ∈ setAttr a n v) : x ∈ a ∨ x = (n, v) := by
  rw [setAttr] at h
  by_cases hb : hasAttrB a n = true
  · rw [if_pos hb] at h
    exact mem_setAttrAux a n v x h
  · rw [if_neg hb] at h
    rcases List.mem_append.mp h with h1 | h2
    · exact Or.inl h1
    · right
      simpa using h2

theorem all_setAttr (a : List (String × String)) (n v : String)
    (P : String × String → Bool) (h : a.all P = true) (hv : P (n, v) = true) :
    (setAttr a n v).all P = true := by
  refine all_of_mem_imp _ P (fun x hx => ?_)
  rcases mem_setAttr a n v x hx with h1 | h2
  · exact mem_of_all a P h x h1
  · rw [h2]; exact hv

theorem mem_foldl_removeAttr (names : List String) (a : List (String × String))
    (x : String × String) (h : x ∈ names.foldl (fun a n => removeAttr a n) a) :
    x ∈ a ∧ memStr names x.1 = false := by
  induction names generalizing a with
  | nil => exact ⟨h, rfl⟩
  | cons n ns ih =>
    rw [List.foldl_cons] at h
    rcases ih (removeAttr a n) h with ⟨h1, h2⟩
    rcases mem_removeAttr a n x h1 with ⟨h3, h4⟩
    refine ⟨h3, ?_⟩
    rw [memStr, if_neg (fun e => h4 e.symm)]
    exact h2

theorem all_stripAttrsOf (a : List (String × String)) :
    (stripAttrsOf a).all (fun x => !memStr STRIP_ATTRIBUTES x.1) = true := by
  refine all_of_mem_imp _ _ (fun x hx => ?_)
  rw [(mem_foldl_removeAttr STRIP_ATTRIBUTES a x hx).2]
  rfl

theorem alookup_foldl_removeAttr (names : List String) (a : List (String × String))
    (m : String) (hm : memStr names m = false) :
    alookup (names.foldl (fun a n => removeAttr a n) a) m = alookup a m := by
  induction names generalizing a with
  | nil => rfl
  | cons n ns ih =>
    rw [memStr] at hm
    by_cases hnm : n = m
    · rw [if_pos hnm] at hm; cases hm
    · rw [if_neg hnm] at hm
      rw [List.foldl_cons, ih (removeAttr a n) hm,
        alookup_removeAttr_ne a n m (fun e => hnm e.symm)]

theorem alookup_stripAttrsOf (a : List (String × String)) (m : String)
    (hm : memStr STRIP_ATTRIBUTES m = false) :
    alookup (stripAttrsOf a) m = alookup a m :=
  alookup_foldl_removeAttr STRIP_ATTRIBUTES a m hm

theorem getTruthy_ne_empty (m : AssetMap) (k v : String) (h : getTruthy m k = some v) :
    ¬(v = "") := by
  cases hm : alookup m k with
  | none => simp [getTruthy, hm] at h
  | some w =>
    simp only [getTruthy, hm] at h
    by_cases hw : w = ""
    · simp [hw] at h
    · simp only [if_neg hw, Option.some.injEq] at h
      rw [← h]
      exact hw

/-! ### Constructor equations for the mutual definitions -/

theorem bool_and_split {a b : Bool} (h : (a && b) = true) : a = true ∧ b = true := by
  cases a <;> cases b <;> simp_all

theorem bool_or_split {a b : Bool} (h : (a || b) = true) : a = true ∨ b = true := by
  cases a <;> cases b <;> simp_all

@[simp] theorem allElemsN_text (P) (s : String) : allElemsN P (.text s) = true := rfl
@[simp] theorem allElemsN_elem (P) (t a cs) :
    allElemsN P (.elem t a cs) = (P t a && allElemsL P cs) := rfl
@[simp] theorem allElemsL_nil (P) : allElemsL P .nil = true := rfl
@[simp] theorem allElemsL_cons (P) (n ns) :
    allElemsL P (.cons n ns) = (allElemsN P n && allElemsL P ns) := rfl

@[simp] theorem mapAttrsN_text (f) (s : String) : mapAttrsN f (.text s) = .text s := rfl
@[simp] theorem mapAttrsN_elem (f) (t a cs) :
    mapAttrsN f (.elem t a cs) = .elem t (f t a) (mapAttrsL f cs) := rfl
@[simp] theorem mapAttrsL_nil (f) : mapAttrsL f .nil = .nil := rfl
@[simp] theorem mapAttrsL_cons (f) (n ns) :
    mapAttrsL f (.cons n ns) = .cons (mapAttrsN f n) (mapAttrsL f ns) := rfl

@[simp] theorem countTagN_text (t : String) (s : String) : countTagN t (.text s) = 0 := rfl
@[simp] theorem countTagN_elem (t : String) (tg a cs) :
    countTagN t (.elem tg a cs) = (if tg = t then 1 else 0) + countTagL t cs := rfl
@[simp] theorem countTagL_nil (t : String) : countTagL t .nil = 0 := rfl
@[simp] theorem countTagL_cons (t : String) (n ns) :
    countTagL t (.cons n ns) = countTagN t n + countTagL t ns := rfl

@[simp] theorem imgSrcN_text (s : String) : imgSrcN (.text s) = [] := rfl
@[simp] theorem imgSrcN_elem (t a cs) :
    imgSrcN (.elem t a cs) =
      (if t = "img" then
        match alookup a "src" with
        | some s => [s]
        | none => []
       else []) ++ imgSrcL cs := rfl
@[simp] theorem imgSrcL_nil : imgSrcL .nil = [] := rfl
@[simp] theorem imgSrcL_cons (n ns) : imgSrcL (.cons n ns) = imgSrcN n ++ imgSrcL ns := rfl

@[simp] theorem sheetViewN_text (s : String) : sheetViewN (.text s) = [] := rfl
@[simp] theorem sheetViewN_elem (t a cs) :
    sheetViewN (.elem t a cs) =
      (if t = "link" ∧ alookup a "rel" = some "stylesheet" then
        [Sum.inl (alookup a "href")]
       else if t = "style" ∧ alookup a "type" = some "text/css" then
        [Sum.inr (textOfChildren cs)]
       else []) ++ sheetViewL cs := rfl
@[simp] theorem sheetViewL_nil : sheetViewL .nil = [] := rfl
@[simp] theorem sheetViewL_cons (n ns) :
    sheetViewL (.cons n ns) = sheetViewN n ++ sheetViewL ns := rfl

@[simp] theorem linksChildlessN_text (s : String) : linksChildlessN (.text s) = true := rfl
@[simp] theorem linksChildlessN_elem (t a cs) :
    linksChildlessN (.elem t a cs) =
      ((!(t = "link") || cs.isNil) && linksChildlessL cs) := rfl
@[simp] theorem linksChildlessL_nil : linksChildlessL .nil = true := rfl
@[simp] theorem linksChildlessL_cons (n ns) :
    linksChildlessL (.cons n ns) = (linksChildlessN n && linksChildlessL ns) := rfl

@[simp] theorem removeTagN_text (t : String) (s : String) :
    removeTagN t (.text s) = some (.text s) := rfl
@[simp] theorem removeTagN_elem (t : String) (tg a cs) :
    removeTagN t (.elem tg a cs) =
      (if tg = t then none else some (.elem tg a (removeTagL t cs))) := rfl
@[simp] theorem removeTagL_nil (t : String) : removeTagL t .nil = .nil := rfl
@[simp] theorem removeTagL_cons (t : String) (n ns) :
    removeTagL t (.cons n ns) =
      (match removeTagN t n with
       | none => removeTagL t ns
       | some n2 => .cons n2 (removeTagL t ns)) := rfl

@[simp] theorem rwLinkN_text (L m base) (s : String) : rwLinkN L m base (.text s) = .text s := rfl
@[simp] theorem rwLinkN_elem (L m base) (t a cs) :
    rwLinkN L m base (.elem t a cs) =
      (if t = "link" ∧ alookup a "rel" = some "stylesheet" then
        match alookup a "href" with
        | some h =>
          match linkCssLookup L m base h with
          | some css => .elem "style" [("type", "text/css")] (.cons (.text css) .nil)
          | none => .elem t a (rwLinkL L m base cs)
        | none => .elem t a (rwLinkL L m base cs)
       else .elem t a (rwLinkL L m base cs)) := rfl
@[simp] theorem rwLinkL_nil (L m base) : rwLinkL L m base .nil = .nil := rfl
@[simp] theorem rwLinkL_cons (L m base) (n ns) :
    rwLinkL L m base (.cons n ns) = .cons (rwLinkN L m base n) (rwLinkL L m base ns) := rfl

@[simp] theorem addBannerN_text (s : String) : addBannerN (.text s) = .text s := rfl
@[simp] theorem addBannerN_elem (t a cs) :
    addBannerN (.elem t a cs) =
      .elem t a (if t = "body" then appendNL bannerNodes (addBannerL cs) else addBannerL cs) := rfl
@[simp] theorem addBannerL_nil : addBannerL .nil = .nil := rfl
@[simp] theorem addBannerL_cons (n ns) :
    addBannerL (.cons n ns) = .cons (addBannerN n) (addBannerL ns) := rfl

@[simp] theorem imgRefsN_text (L base) (s : String) : imgRefsN L base (.text s) = [] := rfl
@[simp] theorem imgRefsN_elem (L base) (t a cs) :
    imgRefsN L base (.elem t a cs) =
      (if t = "img" then
        match alookup a "src" with
        | some s =>
          if !(s = "") && !strStarts s "data:" then [⟨s, resolveUrl L s base⟩] else []
        | none => []
       else []) ++ imgRefsL L base cs := rfl
@[simp] theorem imgRefsL_nil (L base) : imgRefsL L base .nil = [] := rfl
@[simp] theorem imgRefsL_cons (L base) (n ns) :
    imgRefsL L base (.cons n ns) = imgRefsN L base n ++ imgRefsL L base ns := rfl

@[simp] theorem bgRefsN_text (L base) (s : String) : bgRefsN L base (.text s) = [] := rfl
@[simp] theorem bgRefsN_elem (L base) (t a cs) :
    bgRefsN L base (.elem t a cs) =
      (match alookup a "style" with
       | some st =>
         if strContains st "background" then
           (cssUrls st).filterMap
             (fun u => if strStarts u "data:" then none else some ⟨u, resolveUrl L u base⟩)
         else []
       | none => []) ++ bgRefsL L base cs := rfl
@[simp] theorem bgRefsL_nil (L base) : bgRefsL L base .nil = [] := rfl
@[simp] theorem bgRefsL_cons (L base) (n ns) :
    bgRefsL L base (.cons n ns) = bgRefsN L base n ++ bgRefsL L base ns := rfl

@[simp] theorem linkRefsN_text (L base) (s : String) : linkRefsN L base (.text s) = [] := rfl
@[simp] theorem linkRefsN_elem (L base) (t a cs) :
    linkRefsN L base (.elem t a cs) =
      (if t = "link" ∧ alookup a "rel" = some "stylesheet" then
        match alookup a "href" with
        | some h =>
          if !(h = "") && !strStarts h "data:" then [⟨h, resolveUrl L h base⟩] else []
        | none => []
       else []) ++ linkRefsL L base cs := rfl
@[simp] theorem linkRefsL_nil (L base) : linkRefsL L base .nil = [] := rfl
@[simp] theorem linkRefsL_cons (L base) (n ns) :
    linkRefsL L base (.cons n ns) = linkRefsN L base n ++ linkRefsL L base ns := rfl

@[simp] theorem importRefsN_text (L base) (s : String) : importRefsN L base (.text s) = [] := rfl
@[simp] theorem importRefsN_elem (L base) (t a cs) :
    importRefsN L base (.elem t a cs) =
      (if t = "style" then
        (importScan (textOfChildren cs)).filterMap
          (fun mt =>
            let u := importRefText mt
            if strStarts u "data:" then none else some ⟨u, resolveUrl L u base⟩)
       else []) ++ importRefsL L base cs := rfl
@[simp] theorem importRefsL_nil (L base) : importRefsL L base .nil = [] := rfl
@[simp] theorem importRefsL_cons (L base) (n ns) :
    importRefsL L base (.cons n ns) = importRefsN L base n ++ importRefsL L base ns := rfl

/-! ### Mutual tree induction and generic transform lemmas -/

theorem treeInd {PN : Node → Prop} {PL : NodeList → Prop}
    (ht : ∀ s, PN (.text s))
    (he : ∀ t a cs, PL cs → PN (.elem t a cs))
    (hnil : PL .nil)
    (hcons : ∀ n ns, PN n → PL ns → PL (.cons n ns)) :
    (∀ n, PN n) ∧ (∀ l, PL l) :=
  ⟨fun n => @Node.rec PN PL ht he hnil hcons n,
   fun l => @NodeList.rec PN PL ht he hnil hcons l⟩

theorem allElemsL_mapAttrsL (P : String → List (String × String) → Bool)
    (f : String → List (String × String) → List (String × String))
    (hf : ∀ t a, P t a = true → P t (f t a) = true) :
    ∀ l, allElemsL P l = true → allElemsL P (mapAttrsL f l) = true :=
  (@treeInd
    (fun n => allElemsN P n = true → allElemsN P (mapAttrsN f n) = true)
    (fun l => allElemsL P l = true → allElemsL P (mapAttrsL f l) = true)
    (fun _ h => h)
    (fun t a cs ih h => by
      rcases bool_and_split ((allElemsN_elem P t a cs) ▸ h) with ⟨h1, h2⟩
      simp [hf t a h1, ih h2])
    (fun h => h)
    (fun n ns ihn ihl h => by
      rcases bool_and_split ((allElemsL_cons P n ns) ▸ h) with ⟨h1, h2⟩
      simp [ihn h1, ihl h2])).2

theorem allElemsL_mapAttrsL_estab (P : String → List (String × String) → Bool)
    (f : String → List (String × String) → List (String × String))
    (hf : ∀ t a, P t (f t a) = true) :
    ∀ l, allElemsL P (mapAttrsL f l) = true :=
  (@treeInd
    (fun n => allElemsN P (mapAttrsN f n) = true)
    (fun l => allElemsL P (mapAttrsL f l) = true)
    (fun _ => rfl)
    (fun t a _ ih => by simp [hf t a, ih])
    rfl
    (fun n ns ihn ihl => by simp [ihn, ihl])).2

theorem allElemsL_mono (P Q : String → List (String × String) → Bool)
    (h : ∀ t a, P t a = true → Q t a = true) :
    ∀ l, allElemsL P l = true → allElemsL Q l = true :=
  (@treeInd
    (fun n => allElemsN P n = true → allElemsN Q n = true)
    (fun l => allElemsL P l = true → allElemsL Q l = true)
    (fun _ hp => hp)
    (fun t a cs ih hp => by
      rcases bool_and_split ((allElemsN_elem P t a cs) ▸ hp) with ⟨h1, h2⟩
      simp [h t a h1, ih h2])
    (fun hp => hp)
    (fun n ns ihn ihl hp => by
      rcases bool_and_split ((allElemsL_cons P n ns) ▸ hp) with ⟨h1, h2⟩
      simp [ihn h1, ihl h2])).2

theorem countTagL_mapAttrsL (t : String)
    (f : String → List (String × String) → List (String × String)) :
    ∀ l, countTagL t (mapAttrsL f l) = countTagL t l :=
  (@treeInd
    (fun n => countTagN t (mapAttrsN f n) = countTagN t n)
    (fun l => countTagL t (mapAttrsL f l) = countTagL t l)
    (fun _ => rfl)
    (fun tg a cs ih => by simp [ih])
    rfl
    (fun n ns ihn ihl => by simp [ihn, ihl])).2

theorem linksChildlessL_mapAttrsL
    (f : String → List (String × String) → List (String × String)) :
    ∀ l, linksChildlessL (mapAttrsL f l) = linksChildlessL l :=
  (@treeInd
    (fun n => linksChildlessN (mapAttrsN f n) = linksChildlessN n)
    (fun l => linksChildlessL (mapAttrsL f l) = linksChildlessL l)
    (fun _ => rfl)
    (fun tg a cs ih => by
      have hnil : (mapAttrsL f cs).isNil = cs.isNil := by cases cs <;> rfl
      simp [ih, hnil])
    rfl
    (fun n ns ihn ihl => by simp [ihn, ihl])).2

theorem textOfChildren_mapAttrsL
    (f : String → List (String × String) → List (String × String)) :
    ∀ l, textOfChildren (mapAttrsL f l) = textOfChildren l :=
  (@treeInd
    (fun _ => True)
    (fun l => textOfChildren (mapAttrsL f l) = textOfChildren l)
    (fun _ => trivial)
    (fun _ _ _ _ => trivial)
    rfl
    (fun n ns _ ihl => by
      cases n with
      | text s => simp [textOfChildren, ihl]
      | elem t a cs => simp [textOfChildren, ihl])).2

theorem imgSrcL_appendNL :
    ∀ xs ys, imgSrcL (appendNL xs ys) = imgSrcL xs ++ imgSrcL ys :=
  (@treeInd
    (fun _ => True)
    (fun xs => ∀ ys, imgSrcL (appendNL xs ys) = imgSrcL xs ++ imgSrcL ys)
    (fun _ => trivial)
    (fun _ _ _ _ => trivial)
    (fun ys => by simp [appendNL])
    (fun n ns _ ihl ys => by simp [appendNL, ihl ys])).2

theorem sheetViewL_appendNL :
    ∀ xs ys, sheetViewL (appendNL xs ys) = sheetViewL xs ++ sheetViewL ys :=
  (@treeInd
    (fun _ => True)
    (fun xs => ∀ ys, sheetViewL (appendNL xs ys) = sheetViewL xs ++ sheetViewL ys)
    (fun _ => trivial)
    (fun _ _ _ _ => trivial)
    (fun ys => by simp [appendNL])
    (fun n ns _ ihl ys => by simp [appendNL, ihl ys])).2

theorem allElemsL_appendNL (P : String → List (String × String) → Bool) :
    ∀ xs ys, allElemsL P xs = true → allElemsL P ys = true →
      allElemsL P (appendNL xs ys) = true :=
  (@treeInd
    (fun _ => True)
    (fun xs => ∀ ys, allElemsL P xs = true → allElemsL P ys = true →
      allElemsL P (appendNL xs ys) = true)
    (fun _ => trivial)
    (fun _ _ _ _ => trivial)
    (fun ys _ hy => by simpa [appendNL] using hy)
    (fun n ns _ ihl ys hx hy => by
      rcases bool_and_split ((allElemsL_cons P n ns) ▸ hx) with ⟨h1, h2⟩
      simp [appendNL, h1, ihl ys h2 hy])).2

/-- `imgSrcL` of a transformed tree where the transform preserves the `src`
lookup of `img` elements. -/
theorem imgSrcL_mapAttrsL_pres
    (f : String → List (String × String) → List (String × String))
    (hf : ∀ a, alookup (f "img" a) "src" = alookup a "src") :
    ∀ l, imgSrcL (mapAttrsL f l) = imgSrcL l :=
  (@treeInd
    (fun n => imgSrcN (mapAttrsN f n) = imgSrcN n)
    (fun l => imgSrcL (mapAttrsL f l) = imgSrcL l)
    (fun _ => rfl)
    (fun t a cs ih => by
      simp only [mapAttrsN_elem, imgSrcN_elem, ih]
      by_cases ht : t = "img"
      · subst ht; rw [if_pos rfl, if_pos rfl, hf a]
      · rw [if_neg ht, if_neg ht])
    rfl
    (fun n ns ihn ihl => by simp [ihn, ihl])).2

/-- `sheetViewL` of a transformed tree where the transform preserves the
`rel`/`href` lookups of `link` elements and the `type` lookup of `style`
elements. -/
theorem sheetViewL_mapAttrsL_pres
    (f : String → List (String × String) → List (String × String))
    (hrel : ∀ a, alookup (f "link" a) "rel" = alookup a "rel")
    (hhref : ∀ a, alookup (f "link" a) "href" = alookup a "href")
    (htype : ∀ a, alookup (f "style" a) "type" = alookup a "type") :
    ∀ l, sheetViewL (mapAttrsL f l) = sheetViewL l :=
  (@treeInd
    (fun n => sheetViewN (mapAttrsN f n) = sheetViewN n)
    (fun l => sheetViewL (mapAttrsL f l) = sheetViewL l)
    (fun _ => rfl)
    (fun t a cs ih => by
      simp only [mapAttrsN_elem, sheetViewN_elem, ih, textOfChildren_mapAttrsL f cs]
      congr 1
      by_cases hl : t = "link"
      · subst hl
        by_cases hr : alookup a "rel" = some "stylesheet"
        · rw [if_pos ⟨rfl, (hrel a).trans hr⟩, if_pos ⟨rfl, hr⟩, hhref a]
        · have c1 : ¬("link" = "link" ∧ alookup (f "link" a) "rel" = some "stylesheet") :=
            fun hc => hr ((hrel a).symm.trans hc.2)
          have c2 : ¬("link" = "link" ∧ alookup a "rel" = some "stylesheet") :=
            fun hc => hr hc.2
          have c3 : ¬("link" = "style" ∧ alookup (f "link" a) "type" = some "text/css") :=
            fun hc => absurd hc.1 (by decide)
          have c4 : ¬("link" = "style" ∧ alookup a "type" = some "text/css") :=
            fun hc => absurd hc.1 (by decide)
          rw [if_neg c1, if_neg c3, if_neg c2, if_neg c4]
      · by_cases hs : t = "style"
        · subst hs
          have c1 : ¬("style" = "link" ∧ alookup (f "style" a) "rel" = some "stylesheet") :=
            fun hc => hl hc.1
          have c2 : ¬("style" = "link" ∧ alookup a "rel" = some "stylesheet") :=
            fun hc => hl hc.1
          rw [if_neg c1, if_neg c2]
          by_cases htp : alookup a "type" = some "text/css"
          · rw [if_pos ⟨rfl, (htype a).trans htp⟩, if_pos ⟨rfl, htp⟩]
          · have c3 : ¬("style" = "style" ∧ alookup (f "style" a) "type" = some "text/css") :=
              fun hc => htp ((htype a).symm.trans hc.2)
            have c4 : ¬("style" = "style" ∧ alookup a "type" = some "text/css") :=
              fun hc => htp hc.2
            rw [if_neg c3, if_neg c4]
        · have c1 : ¬(t = "link" ∧ alookup (f t a) "rel" = some "stylesheet") :=
            fun hc => hl hc.1
          have c2 : ¬(t = "link" ∧ alookup a "rel" = some "stylesheet") :=
            fun hc => hl hc.1
          have c3 : ¬(t = "style" ∧ alookup (f t a) "type" = some "text/css") :=
            fun hc => hs hc.1
          have c4 : ¬(t = "style" ∧ alookup a "type" = some "text/css") :=
            fun hc => hs hc.1
          rw [if_neg c1, if_neg c3, if_neg c2, if_neg c4])
    rfl
    (fun n ns ihn ihl => by simp [ihn, ihl])).2


/-! ### `removeTag` lemmas -/

theorem removeTagL_noTag (t : String) :
    ∀ l, allElemsL (fun tg _ => !(tg = t)) (removeTagL t l) = true :=
  (@treeInd
    (fun n => ∀ n2, removeTagN t n = some n2 →
      allElemsN (fun tg _ => !(tg = t)) n2 = true)
    (fun l => allElemsL (fun tg _ => !(tg = t)) (removeTagL t l) = true)
    (fun s n2 h => by
      rw [removeTagN_text] at h
      cases h
      rfl)
    (fun tg a cs ih n2 h => by
      rw [removeTagN_elem] at h
      by_cases he : tg = t
      · rw [if_pos he] at h; cases h
      · rw [if_neg he] at h
        cases h
        simp [he, ih])
    rfl
    (fun n ns ihn ihl => by
      simp only [removeTagL_cons]
      cases he : removeTagN t n with
      | none => exact ihl
      | some n2 => simp [ihn n2 he, ihl])).2

theorem removeTagL_id (t : String) :
    ∀ l, allElemsL (fun tg _ => !(tg = t)) l = true → removeTagL t l = l :=
  (@treeInd
    (fun n => allElemsN (fun tg _ => !(tg = t)) n = true → removeTagN t n = some n)
    (fun l => allElemsL (fun tg _ => !(tg = t)) l = true → removeTagL t l = l)
    (fun s _ => rfl)
    (fun tg a cs ih h => by
      rcases bool_and_split ((allElemsN_elem _ tg a cs) ▸ h) with ⟨h1, h2⟩
      have htg : ¬(tg = t) := by
        intro e; rw [e] at h1; simp at h1
      rw [removeTagN_elem, if_neg htg, ih h2])
    (fun _ => rfl)
    (fun n ns ihn ihl h => by
      rcases bool_and_split ((allElemsL_cons _ n ns) ▸ h) with ⟨h1, h2⟩
      rw [removeTagL_cons, ihn h1, ihl h2])).2

theorem removeStripTags_id (l : NodeList) (h : noStripTagsL l = true) :
    removeStripTags l = l := by
  have hone : ∀ t, memStr STRIP_TAGS t = true →
      allElemsL (fun tg _ => !(tg = t)) l = true := by
    intro t ht
    refine allElemsL_mono _ _ (fun tg a hp => ?_) l h
    by_cases he : tg = t
    · rw [he, ht] at hp; cases hp
    · simp [he]
  rw [removeStripTags, STRIP_TAGS]
  simp only [List.foldl_cons, List.foldl_nil]
  rw [removeTagL_id "script" l (hone "script" (by decide))]
  rw [removeTagL_id "noscript" l (hone "noscript" (by decide))]
  rw [removeTagL_id "iframe" l (hone "iframe" (by decide))]
  rw [removeTagL_id "object" l (hone "object" (by decide))]
  rw [removeTagL_id "embed" l (hone "embed" (by decide))]

theorem allElemsL_removeTagL (t : String) (P : String → List (String × String) → Bool) :
    ∀ l, allElemsL P l = true → allElemsL P (removeTagL t l) = true :=
  (@treeInd
    (fun n => allElemsN P n = true → ∀ n2, removeTagN t n = some n2 →
      allElemsN P n2 = true)
    (fun l => allElemsL P l = true → allElemsL P (removeTagL t l) = true)
    (fun s h n2 he => by rw [removeTagN_text] at he; cases he; exact h)
    (fun tg a cs ih h n2 he => by
      rcases bool_and_split ((allElemsN_elem P tg a cs) ▸ h) with ⟨h1, h2⟩
      rw [removeTagN_elem] at he
      by_cases hg : tg = t
      · rw [if_pos hg] at he; cases he
      · rw [if_neg hg] at he
        cases he
        simp [h1, ih h2])
    (fun _ => rfl)
    (fun n ns ihn ihl h => by
      rcases bool_and_split ((allElemsL_cons P n ns) ▸ h) with ⟨h1, h2⟩
      rw [removeTagL_cons]
      cases he : removeTagN t n with
      | none => exact ihl h2
      | some n2 => simp [ihn h1 n2 he, ihl h2])).2

theorem allElemsL_removeStripTags (P : String → List (String × String) → Bool)
    (l : NodeList) (h : allElemsL P l = true) :
    allElemsL P (removeStripTags l) = true := by
  rw [removeStripTags, STRIP_TAGS]
  simp only [List.foldl_cons, List.foldl_nil]
  exact allElemsL_removeTagL "embed" P _
    (allElemsL_removeTagL "object" P _
      (allElemsL_removeTagL "iframe" P _
        (allElemsL_removeTagL "noscript" P _
          (allElemsL_removeTagL "script" P l h))))

/-! ### Pass-3 (`rwLink`) lemmas -/

theorem nodeListIsNil_eq_nil (cs : NodeList) (h : cs.isNil = true) : cs = .nil := by
  cases cs with
  | nil => rfl
  | cons n ns => cases h

theorem allElemsL_rwLinkL (L : UrlLib) (m : AssetMap) (base : Option String)
    (P : String → List (String × String) → Bool)
    (hstyle : P "style" [("type", "text/css")] = true) :
    ∀ l, allElemsL P l = true → allElemsL P (rwLinkL L m base l) :=
  (@treeInd
    (fun n => allElemsN P n = true → allElemsN P (rwLinkN L m base n) = true)
    (fun l => allElemsL P l = true → allElemsL P (rwLinkL L m base l) = true)
    (fun _ h => h)
    (fun t a cs ih h => by
      rcases bool_and_split ((allElemsN_elem P t a cs) ▸ h) with ⟨h1, h2⟩
      rw [rwLinkN_elem]
      by_cases hg : t = "link" ∧ alookup a "rel" = some "stylesheet"
      · rw [if_pos hg]
        cases hh : alookup a "href" with
        | none => simp [hh, h1, ih h2]
        | some href =>
          cases hc : linkCssLookup L m base href with
          | none => simp [hh, hc, h1, ih h2]
          | some css => simp [hh, hc, hstyle]
      · rw [if_neg hg]
        simp [h1, ih h2])
    (fun h => h)
    (fun n ns ihn ihl h => by
      rcases bool_and_split ((allElemsL_cons P n ns) ▸ h) with ⟨h1, h2⟩
      simp [ihn h1, ihl h2])).2

theorem imgSrcL_rwLinkL (L : UrlLib) (m : AssetMap) (base : Option String) :
    ∀ l, linksChildlessL l = true → imgSrcL (rwLinkL L m base l) = imgSrcL l :=
  (@treeInd
    (fun n => linksChildlessN n = true → imgSrcN (rwLinkN L m base n) = imgSrcN n)
    (fun l => linksChildlessL l = true → imgSrcL (rwLinkL L m base l) = imgSrcL l)
    (fun _ _ => rfl)
    (fun t a cs ih h => by
      rcases bool_and_split ((linksChildlessN_elem t a cs) ▸ h) with ⟨h1, h2⟩
      rw [rwLinkN_elem]
      by_cases hg : t = "link" ∧ alookup a "rel" = some "stylesheet"
      · rw [if_pos hg]
        have hcs : cs = .nil := by
          apply nodeListIsNil_eq_nil
          rcases bool_or_split h1 with hnot | hn
          · exact absurd hg.1 (by simpa using hnot)
          · exact hn
        subst hcs
        cases hh : alookup a "href" with
        | none => simp [hh]
        | some href =>
          cases hc : linkCssLookup L m base href with
          | none => simp [hh, hc]
          | some css =>
            have hsty : ¬(("style" : String) = "img") := by decide
            have hlnk : ¬((t : String) = "img") := by rw [hg.1]; decide
            simp [hh, hc, hsty, hlnk]
      · rw [if_neg hg]
        simp [ih h2])
    (fun _ => rfl)
    (fun n ns ihn ihl h => by
      rcases bool_and_split ((linksChildlessL_cons n ns) ▸ h) with ⟨h1, h2⟩
      simp [ihn h1, ihl h2])).2

theorem textOfChildren_rwLinkL (L : UrlLib) (m : AssetMap) (base : Option String) :
    ∀ l, textOfChildren (rwLinkL L m base l) = textOfChildren l :=
  (@treeInd
    (fun _ => True)
    (fun l => textOfChildren (rwLinkL L m base l) = textOfChildren l)
    (fun _ => trivial)
    (fun _ _ _ _ => trivial)
    rfl
    (fun n ns _ ihl => by
      cases n with
      | text s => simp [textOfChildren, ihl]
      | elem t a cs =>
        rw [rwLinkL_cons, rwLinkN_elem]
        by_cases hg : t = "link" ∧ alookup a "rel" = some "stylesheet"
        · rw [if_pos hg]
          cases hh : alookup a "href" with
          | none => simp [hh, textOfChildren, ihl]
          | some href =>
            cases hc : linkCssLookup L m base href with
            | none => simp [hh, hc, textOfChildren, ihl]
            | some css => simp [hh, hc, textOfChildren, ihl]
        · rw [if_neg hg]
          simp [textOfChildren, ihl])).2

theorem sheetViewL_rwLinkL (L : UrlLib) (m : AssetMap) (base : Option String) :
    ∀ l, linksChildlessL l = true →
      sheetViewL (rwLinkL L m base l) = (sheetViewL l).map (linkViewF L m base) :=
  (@treeInd
    (fun n => linksChildlessN n = true →
      sheetViewN (rwLinkN L m base n) = (sheetViewN n).map (linkViewF L m base))
    (fun l => linksChildlessL l = true →
      sheetViewL (rwLinkL L m base l) = (sheetViewL l).map (linkViewF L m base))
    (fun _ _ => rfl)
    (fun t a cs ih h => by
      rcases bool_and_split ((linksChildlessN_elem t a cs) ▸ h) with ⟨h1, h2⟩
      rw [rwLinkN_elem]
      by_cases hg : t = "link" ∧ alookup a "rel" = some "stylesheet"
      · have hcs : cs = .nil := by
          apply nodeListIsNil_eq_nil
          rcases bool_or_split h1 with hnot | hn
          · exact absurd hg.1 (by simpa using hnot)
          · exact hn
        subst hcs
        rw [if_pos hg]
        cases hh : alookup a "href" with
        | none => simp [sheetViewN_elem, hg, hh, linkViewF]
        | some href =>
          cases hc : linkCssLookup L m base href with
          | none => simp [sheetViewN_elem, hg, hh, hc, linkViewF]
          | some css => simp [sheetViewN_elem, hg, hh, hc, linkViewF, textOfChildren, alookup]
      · rw [if_neg hg]
        rw [sheetViewN_elem, sheetViewN_elem, List.map_append, ih h2,
          textOfChildren_rwLinkL L m base cs]
        congr 1
        rw [if_neg hg]
        by_cases hs : t = "style" ∧ alookup a "type" = some "text/css"
        · rw [if_pos hs]
          simp [linkViewF]
        · rw [if_neg hs]
          simp)
    (fun _ => rfl)
    (fun n ns ihn ihl h => by
      rcases bool_and_split ((linksChildlessL_cons n ns) ▸ h) with ⟨h1, h2⟩
      simp [ihn h1, ihl h2])).2

/-! ### Banner lemmas -/

theorem textOfChildren_addBannerL :
    ∀ l, textOfChildren (addBannerL l) = textOfChildren l :=
  (@treeInd
    (fun _ => True)
    (fun l => textOfChildren (addBannerL l) = textOfChildren l)
    (fun _ => trivial)
    (fun _ _ _ _ => trivial)
    rfl
    (fun n ns _ ihl => by
      cases n with
      | text s => simp [textOfChildren, ihl]
      | elem t a cs => simp [textOfChildren, ihl])).2

theorem imgSrcL_addBannerL : ∀ l, imgSrcL (addBannerL l) = imgSrcL l :=
  (@treeInd
    (fun n => imgSrcN (addBannerN n) = imgSrcN n)
    (fun l => imgSrcL (addBannerL l) = imgSrcL l)
    (fun _ => rfl)
    (fun t a cs ih => by
      simp only [addBannerN_elem, imgSrcN_elem]
      by_cases hb : t = "body"
      · rw [if_pos hb, imgSrcL_appendNL bannerNodes (addBannerL cs), ih]
        have : imgSrcL bannerNodes = [] := rfl
        rw [this, List.nil_append]
      · rw [if_neg hb, ih])
    rfl
    (fun n ns ihn ihl => by simp [ihn, ihl])).2

theorem sheetViewL_addBannerL : ∀ l, sheetViewL (addBannerL l) = sheetViewL l :=
  (@treeInd
    (fun n => sheetViewN (addBannerN n) = sheetViewN n)
    (fun l => sheetViewL (addBannerL l) = sheetViewL l)
    (fun _ => rfl)
    (fun t a cs ih => by
      simp only [addBannerN_elem, sheetViewN_elem]
      by_cases hb : t = "body"
      · subst hb
        have c1 : ¬(("body" : String) = "link" ∧ alookup a "rel" = some "stylesheet") :=
          fun hc => absurd hc.1 (by decide)
        have c2 : ¬(("body" : String) = "style" ∧ alookup a "type" = some "text/css") :=
          fun hc => absurd hc.1 (by decide)
        rw [if_pos rfl, if_neg c1, if_neg c2,
          sheetViewL_appendNL bannerNodes (addBannerL cs), ih]
        simp [c1, c2]
        rfl
      · rw [if_neg hb, textOfChildren_addBannerL cs, ih])
    rfl
    (fun n ns ihn ihl => by simp [ihn, ihl])).2

theorem allElemsL_addBannerL (P : String → List (String × String) → Bool)
    (hdiv1 : P "div" [("style", bannerStyle)] = true)
    (hdiv2 : P "div" [("style", "height: 36px;")] = true) :
    ∀ l, allElemsL P l = true → allElemsL P (addBannerL l) = true :=
  (@treeInd
    (fun n => allElemsN P n = true → allElemsN P (addBannerN n) = true)
    (fun l => allElemsL P l = true → allElemsL P (addBannerL l) = true)
    (fun _ h => h)
    (fun t a cs ih h => by
      rcases bool_and_split ((allElemsN_elem P t a cs) ▸ h) with ⟨h1, h2⟩
      rw [addBannerN_elem, allElemsN_elem]
      by_cases hb : t = "body"
      · rw [if_pos hb, h1]
        have hbn : allElemsL P bannerNodes = true := by
          simp [bannerNodes, hdiv1, hdiv2]
        rw [allElemsL_appendNL P bannerNodes (addBannerL cs) hbn (ih h2)]
        rfl
      · rw [if_neg hb, h1, ih h2]
        rfl)
    (fun h => h)
    (fun n ns ihn ihl h => by
      rcases bool_and_split ((allElemsL_cons P n ns) ▸ h) with ⟨h1, h2⟩
      simp [ihn h1, ihl h2])).2

/-! ### Combining and transporting element predicates -/

theorem allElemsL_and (P Q : String → List (String × String) → Bool) :
    ∀ l, allElemsL P l = true → allElemsL Q l = true →
      allElemsL (fun t a => P t a && Q t a) l = true :=
  (@treeInd
    (fun n => allElemsN P n = true → allElemsN Q n = true →
      allElemsN (fun t a => P t a && Q t a) n = true)
    (fun l => allElemsL P l = true → allElemsL Q l = true →
      allElemsL (fun t a => P t a && Q t a) l = true)
    (fun _ _ _ => rfl)
    (fun t a cs ih hp hq => by
      rcases bool_and_split ((allElemsN_elem P t a cs) ▸ hp) with ⟨hp1, hp2⟩
      rcases bool_and_split ((allElemsN_elem Q t a cs) ▸ hq) with ⟨hq1, hq2⟩
      simp [hp1, hq1, ih hp2 hq2])
    (fun _ _ => rfl)
    (fun n ns ihn ihl hp hq => by
      rcases bool_and_split ((allElemsL_cons P n ns) ▸ hp) with ⟨hp1, hp2⟩
      rcases bool_and_split ((allElemsL_cons Q n ns) ▸ hq) with ⟨hq1, hq2⟩
      simp [ihn hp1 hq1, ihl hp2 hq2])).2

/-- Conditional establishment: an attribute pass turns elements satisfying
`P` into elements satisfying `Q`. -/
theorem allElemsL_mapAttrsL_impl (P Q : String → List (String × String) → Bool)
    (f : String → List (String × String) → List (String × String))
    (hf : ∀ t a, P t a = true → Q t (f t a) = true) :
    ∀ l, allElemsL P l = true → allElemsL Q (mapAttrsL f l) = true :=
  (@treeInd
    (fun n => allElemsN P n = true → allElemsN Q (mapAttrsN f n) = true)
    (fun l => allElemsL P l = true → allElemsL Q (mapAttrsL f l) = true)
    (fun _ _ => rfl)
    (fun t a cs ih h => by
      rcases bool_and_split ((allElemsN_elem P t a cs) ▸ h) with ⟨h1, h2⟩
      simp [hf t a h1, ih h2])
    (fun _ => rfl)
    (fun n ns ihn ihl h => by
      rcases bool_and_split ((allElemsL_cons P n ns) ▸ h) with ⟨h1, h2⟩
      simp [ihn h1, ihl h2])).2

/-- Pass 1 substitutes exactly the truthy literal-key lookups, per `src`. -/
theorem imgSrcL_rwImgPass (m : AssetMap) :
    ∀ l, imgSrcL (rwImgPass m l) = (imgSrcL l).map (imgSubst m) :=
  (@treeInd
    (fun n => imgSrcN (mapAttrsN (imgAttrF m) n) = (imgSrcN n).map (imgSubst m))
    (fun l => imgSrcL (mapAttrsL (imgAttrF m) l) = (imgSrcL l).map (imgSubst m))
    (fun _ => rfl)
    (fun t a cs ih => by
      simp only [mapAttrsN_elem, imgSrcN_elem, List.map_append, ih]
      congr 1
      by_cases ht : t = "img"
      · rw [if_pos ht, if_pos ht, imgAttrF, if_pos ht]
        cases hs : alookup a "src" with
        | none => simp [hs]
        | some s =>
          cases hv : getTruthy m s with
          | none => simp [hs, imgSubst, hv]
          | some v => simp [hs, alookup_setAttr_self, imgSubst, hv]
      · rw [if_neg ht, if_neg ht]
        rfl)
    rfl
    (fun n ns ihn ihl => by
      simp only [mapAttrsL_cons, imgSrcL_cons, List.map_append, ihn, ihl])).2

/-! ### Sanitisation chain -/

theorem denyOk_of_clean (t : String) (x : String × String)
    (h : (!memStr STRIP_ATTRIBUTES x.1) = true) : denyOk t x = true := by
  rw [denyOk, h]
  rfl

theorem denyOkPair (t n v : String) (h : (!memStr STRIP_ATTRIBUTES n) = true) :
    denyOk t (n, v) = true :=
  denyOk_of_clean t (n, v) h

theorem noScript_removeStripTags (doc : NodeList) :
    allElemsL (fun tg _ => !(tg = "script")) (removeStripTags doc) = true := by
  rw [removeStripTags, STRIP_TAGS]
  simp only [List.foldl_cons, List.foldl_nil]
  exact allElemsL_removeTagL "embed" _ _
    (allElemsL_removeTagL "object" _ _
      (allElemsL_removeTagL "iframe" _ _
        (allElemsL_removeTagL "noscript" _ _ (removeTagL_noTag "script" doc))))

/-- After `stripUnsafeContent` every element satisfies `sanOk`. -/
theorem strip_sanOk (doc : NodeList) :
    allElemsL sanOk (stripUnsafeContent doc) = true := by
  have h0 := noScript_removeStripTags doc
  have h1c : allElemsL (fun _ a => a.all (fun x => !memStr STRIP_ATTRIBUTES x.1))
      (stripAttrsPass (removeStripTags doc)) = true :=
    allElemsL_mapAttrsL_estab _ _ (fun _ a => all_stripAttrsOf a) _
  have h1s : allElemsL (fun tg _ => !(tg = "script"))
      (stripAttrsPass (removeStripTags doc)) = true :=
    allElemsL_mapAttrsL (fun tg _ => !(tg = "script")) stripAttrF (fun _ _ h => h) _ h0
  have h2c : allElemsL
      (fun t a => a.all (denyOk t) && (!(t = "form") || (alookup a "action").isNone))
      (disableFormsPass (stripAttrsPass (removeStripTags doc))) = true := by
    refine allElemsL_mapAttrsL_impl _ _ _ (fun t a h => ?_) _ h1c
    by_cases ht : t = "form"
    · subst ht
      rw [formAttrF, if_pos rfl]
      have hall : (removeAttr (setAttr a "onsubmit" "return false;") "action").all
          (denyOk "form") = true := by
        apply all_removeAttr
        apply all_setAttr _ _ _ _ _ (by decide)
        exact List.all_eq_true.mpr
          (fun x hx => denyOk_of_clean "form" x (List.all_eq_true.mp h x hx))
      rw [hall, alookup_removeAttr_self]
      rfl
    · rw [formAttrF, if_neg ht]
      have hall : a.all (denyOk t) = true :=
        List.all_eq_true.mpr
          (fun x hx => denyOk_of_clean t x (List.all_eq_true.mp h x hx))
      simp [hall, ht]
  have h2s : allElemsL (fun tg _ => !(tg = "script"))
      (disableFormsPass (stripAttrsPass (removeStripTags doc))) = true :=
    allElemsL_mapAttrsL (fun tg _ => !(tg = "script")) formAttrF (fun _ _ h => h) _ h1s
  have h3c : allElemsL
      (fun t a => a.all (denyOk t) && (!(t = "form") || (alookup a "action").isNone))
      (stripUnsafeContent doc) = true := by
    refine allElemsL_mapAttrsL _ _ (fun t a h => ?_) _ h2c
    rw [inputAttrF]
    by_cases hg : t = "input" ∨ t = "textarea" ∨ t = "button"
    · rw [if_pos hg]
      rcases bool_and_split h with ⟨hall, hact⟩
      have hall2 : (setAttr a "disabled" "disabled").all (denyOk t) = true :=
        all_setAttr a "disabled" "disabled" (denyOk t) hall
          (denyOkPair t "disabled" "disabled" (by decide))
      have hform : (!(t = "form") : Bool) = true := by
        rcases hg with hg | hg | hg <;> (subst hg; decide)
      rw [hall2, hform]
      rfl
    · rw [if_neg hg]
      exact h
  have h3s : allElemsL (fun tg _ => !(tg = "script")) (stripUnsafeContent doc) = true :=
    allElemsL_mapAttrsL (fun tg _ => !(tg = "script")) inputAttrF (fun _ _ h => h) _ h2s
  have hand := allElemsL_and _ _ (stripUnsafeContent doc) h3s h3c
  refine allElemsL_mono _ sanOk (fun t a h => ?_) _ hand
  rcases bool_and_split h with ⟨ha, hbc⟩
  rcases bool_and_split hbc with ⟨hb, hc⟩
  rw [sanOk, ha, hb, hc]
  rfl

/-- `sanOk` survives pass 1. -/
theorem sanOk_rwImgPass (m : AssetMap) (l : NodeList)
    (h : allElemsL sanOk l = true) : allElemsL sanOk (rwImgPass m l) = true := by
  refine allElemsL_mapAttrsL sanOk (imgAttrF m) (fun t a hp => ?_) _ h
  rw [imgAttrF]
  by_cases ht : t = "img"
  · rw [if_pos ht]
    cases hs : alookup a "src" with
    | none =>
      simp only [hs]
      exact hp
    | some s =>
      cases hv : getTruthy m s with
      | none =>
        simp only [hs, hv]
        exact hp
      | some v =>
        subst ht
        simp only [hs, hv]
        rcases bool_and_split hp with ⟨h12, _⟩
        rcases bool_and_split h12 with ⟨_, hall⟩
        have hall2 : (setAttr a "src" v).all (denyOk "img") = true :=
          all_setAttr a "src" v (denyOk "img") hall (denyOkPair "img" "src" v (by decide))
        rw [sanOk, hall2]
        rw [show (!("img" = "form") : Bool) = true from by decide, Bool.true_or]
        decide
  · rw [if_neg ht]
    exact hp

/-- `sanOk` survives pass 2. -/
theorem sanOk_rwBgPass (m : AssetMap) (l : NodeList)
    (h : allElemsL sanOk l = true) : allElemsL sanOk (rwBgPass m l) = true := by
  refine allElemsL_mapAttrsL sanOk (bgAttrF m) (fun t a hp => ?_) _ h
  rw [bgAttrF]
  cases hs : alookup a "style" with
  | none =>
    simp only [hs]
    exact hp
  | some st =>
    simp only [hs]
    by_cases hbg : strContains st "background"
    · rw [if_pos hbg]
      rcases bool_and_split hp with ⟨h12, h3⟩
      rcases bool_and_split h12 with ⟨hns, hall⟩
      have hall2 : (setAttr a "style" (bgSubst m st)).all (denyOk t) = true :=
        all_setAttr a "style" (bgSubst m st) (denyOk t) hall
          (denyOkPair t "style" (bgSubst m st) (by decide))
      have hact : (!(t = "form") || (alookup (setAttr a "style" (bgSubst m st)) "action").isNone)
          = true := by
        rw [alookup_setAttr_ne a "style" (bgSubst m st) "action" (by decide)]
        exact h3
      rw [sanOk, hns, hall2, hact]
      rfl
    · rw [if_neg hbg]
      exact hp

/-! ### Attribute passes and non-`style`/`img` lookups -/

theorem bgAttrF_alookup_ne (m : AssetMap) (t : String) (a : List (String × String))
    (n : String) (hn : ¬(n = "style")) : alookup (bgAttrF m t a) n = alookup a n := by
  rw [bgAttrF]
  cases hs : alookup a "style" with
  | none => rfl
  | some st =>
    simp only [hs]
    by_cases hb : strContains st "background"
    · rw [if_pos hb, alookup_setAttr_ne a "style" (bgSubst m st) n hn]
    · rw [if_neg hb]

theorem imgAttrF_ne (m : AssetMap) (t : String) (a : List (String × String))
    (ht : ¬(t = "img")) : imgAttrF m t a = a := by
  rw [imgAttrF, if_neg ht]

/-! ### The rewrite phase, viewed through the collectors -/

theorem linksChildlessL_rwImgPass (m : AssetMap) (l : NodeList)
    (h : linksChildlessL l = true) : linksChildlessL (rwImgPass m l) = true := by
  rw [rwImgPass, linksChildlessL_mapAttrsL]
  exact h

theorem linksChildlessL_rwBgPass (m : AssetMap) (l : NodeList)
    (h : linksChildlessL l = true) : linksChildlessL (rwBgPass m l) = true := by
  rw [rwBgPass, linksChildlessL_mapAttrsL]
  exact h

theorem imgSrcL_rewriteAssets (L : UrlLib) (m : AssetMap) (base : Option String)
    (doc : NodeList) (hld : linksChildlessL doc = true) :
    imgSrcL (rewriteAssets L m base doc) = (imgSrcL doc).map (imgSubst m) := by
  have hbg : ∀ a, alookup (bgAttrF m "img" a) "src" = alookup a "src" :=
    fun a => bgAttrF_alookup_ne m "img" a "src" (by decide)
  show imgSrcL (rwLinkL L m base (rwBgPass m (rwImgPass m doc))) = _
  rw [imgSrcL_rwLinkL L m base _ (linksChildlessL_rwBgPass m _ (linksChildlessL_rwImgPass m _ hld))]
  rw [rwBgPass, imgSrcL_mapAttrsL_pres (bgAttrF m) hbg]
  exact imgSrcL_rwImgPass m doc

theorem sheetViewL_rewriteAssets (L : UrlLib) (m : AssetMap) (base : Option String)
    (doc : NodeList) (hld : linksChildlessL doc = true) :
    sheetViewL (rewriteAssets L m base doc) = (sheetViewL doc).map (linkViewF L m base) := by
  show sheetViewL (rwLinkL L m base (rwBgPass m (rwImgPass m doc))) = _
  rw [sheetViewL_rwLinkL L m base _
    (linksChildlessL_rwBgPass m _ (linksChildlessL_rwImgPass m _ hld))]
  congr 1
  rw [rwBgPass, sheetViewL_mapAttrsL_pres (bgAttrF m)
    (fun a => bgAttrF_alookup_ne m "link" a "rel" (by decide))
    (fun a => bgAttrF_alookup_ne m "link" a "href" (by decide))
    (fun a => bgAttrF_alookup_ne m "style" a "type" (by decide))]
  rw [rwImgPass, sheetViewL_mapAttrsL_pres (imgAttrF m)
    (fun a => by rw [imgAttrF_ne m "link" a (by decide)])
    (fun a => by rw [imgAttrF_ne m "link" a (by decide)])
    (fun a => by rw [imgAttrF_ne m "style" a (by decide)])]

/-! ### The sanitisation phase, viewed through the collectors -/

theorem imgSrcL_stripUnsafeContent (doc : NodeList) (hns : noStripTagsL doc = true) :
    imgSrcL (stripUnsafeContent doc) = imgSrcL doc := by
  show imgSrcL (mapAttrsL inputAttrF (mapAttrsL formAttrF
    (mapAttrsL stripAttrF (removeStripTags doc)))) = _
  rw [imgSrcL_mapAttrsL_pres inputAttrF
      (fun a => by rw [inputAttrF, if_neg (by decide)]),
    imgSrcL_mapAttrsL_pres formAttrF
      (fun a => by rw [formAttrF, if_neg (by decide)]),
    imgSrcL_mapAttrsL_pres stripAttrF
      (fun a => alookup_stripAttrsOf a "src" (by decide)),
    removeStripTags_id doc hns]

theorem sheetViewL_stripUnsafeContent (doc : NodeList) (hns : noStripTagsL doc = true) :
    sheetViewL (stripUnsafeContent doc) = sheetViewL doc := by
  show sheetViewL (mapAttrsL inputAttrF (mapAttrsL formAttrF
    (mapAttrsL stripAttrF (removeStripTags doc)))) = _
  rw [sheetViewL_mapAttrsL_pres inputAttrF
      (fun a => by rw [inputAttrF, if_neg (by decide)])
      (fun a => by rw [inputAttrF, if_neg (by decide)])
      (fun a => by rw [inputAttrF, if_neg (by decide)]),
    sheetViewL_mapAttrsL_pres formAttrF
      (fun a => by rw [formAttrF, if_neg (by decide)])
      (fun a => by rw [formAttrF, if_neg (by decide)])
      (fun a => by rw [formAttrF, if_neg (by decide)]),
    sheetViewL_mapAttrsL_pres stripAttrF
      (fun a => alookup_stripAttrsOf a "rel" (by decide))
      (fun a => alookup_stripAttrsOf a "href" (by decide))
      (fun a => alookup_stripAttrsOf a "type" (by decide)),
    removeStripTags_id doc hns]

theorem linksChildlessL_stripUnsafeContent (doc : NodeList)
    (hld : linksChildlessL doc = true) (hns : noStripTagsL doc = true) :
    linksChildlessL (stripUnsafeContent doc) = true := by
  show linksChildlessL (mapAttrsL inputAttrF (mapAttrsL formAttrF
    (mapAttrsL stripAttrF (removeStripTags doc)))) = true
  rw [linksChildlessL_mapAttrsL, linksChildlessL_mapAttrsL, linksChildlessL_mapAttrsL,
    removeStripTags_id doc hns]
  exact hld

/-! ## Claim theorems

### C1 — sanitization completeness -/

/-- Claim C1, as stated, is false at a concrete input: `docC1` contains a
`<script>`, an `onclick` handler and a `<form action>`, yet the full
pipeline's output still carries a denylisted event-handler attribute
(the `onsubmit="return false;"` the sanitiser itself installs on the
form). -/
theorem c1_counterexample :
    countTagL "script" docC1 = 1
    ∧ allElemsL (fun _ a => (alookup a "onclick").isNone) docC1 = false
    ∧ allElemsL (fun t a => !(t = "form") || (alookup a "action").isNone) docC1 = false
    ∧ allElemsL (fun _ a => a.all (fun x => !memStr STRIP_ATTRIBUTES x.1))
        (addReplicaBanner (rewriteAssets urlLibC [] none (stripUnsafeContent docC1)))
        = false := by
  decide

/-- Claim C1 (amended): for every input document, asset map and base URL,
the document produced by the full pipeline (sanitize, substitute, annotate)
contains no `script` element, no denylisted event-handler attribute on any
element *except* the `onsubmit="return false;"` installed on `form`
elements, and no `action` attribute on any form. -/
theorem c1_sanitization_amended (L : UrlLib) (m : AssetMap) (base : Option String)
    (doc : NodeList) :
    allElemsL sanOk
      (addReplicaBanner (rewriteAssets L m base (stripUnsafeContent doc))) = true := by
  have h0 := strip_sanOk doc
  have h1 := sanOk_rwImgPass m _ h0
  have h2 := sanOk_rwBgPass m _ h1
  have h3 := allElemsL_rwLinkL L m base sanOk (by decide) _ h2
  exact allElemsL_addBannerL sanOk (by decide) (by decide) _ h3

/-! ### C5 — forms disabled but kept -/

/-- Claim C5: after `stripUnsafeContent`, every `form` element carries
`onsubmit="return false;"` (an attribute that is itself on the denylist) and
no `action`; every `input`/`textarea`/`button` carries
`disabled="disabled"`; and (on documents with no denylisted tags, whose
removal is the only element-deleting step) these elements are kept in the
tree, not removed. -/
theorem c5_forms_disabled (doc : NodeList) (hns : noStripTagsL doc = true) :
    allElemsL formOk (stripUnsafeContent doc) = true
    ∧ allElemsL inputOk (stripUnsafeContent doc) = true
    ∧ memStr STRIP_ATTRIBUTES "onsubmit" = true
    ∧ countTagL "form" (stripUnsafeContent doc) = countTagL "form" doc
    ∧ countTagL "input" (stripUnsafeContent doc) = countTagL "input" doc
    ∧ countTagL "textarea" (stripUnsafeContent doc) = countTagL "textarea" doc
    ∧ countTagL "button" (stripUnsafeContent doc) = countTagL "button" doc := by
  have hformF : allElemsL formOk
      (disableFormsPass (stripAttrsPass (removeStripTags doc))) = true := by
    refine allElemsL_mapAttrsL_estab formOk formAttrF (fun t a => ?_) _
    rw [formAttrF]
    by_cases ht : t = "form"
    · subst ht
      rw [if_pos rfl, formOk]
      have h1 : alookup (removeAttr (setAttr a "onsubmit" "return false;") "action")
          "onsubmit" = some "return false;" := by
        rw [alookup_removeAttr_ne _ _ _ (by decide), alookup_setAttr_self]
      rw [h1, alookup_removeAttr_self]
      decide
    · rw [if_neg ht, formOk]
      simp [ht]
  have hform : allElemsL formOk (stripUnsafeContent doc) = true := by
    refine allElemsL_mapAttrsL formOk inputAttrF (fun t a h => ?_) _ hformF
    rw [inputAttrF]
    by_cases hg : t = "input" ∨ t = "textarea" ∨ t = "button"
    · rw [if_pos hg, formOk]
      have hf : (!(t = "form") : Bool) = true := by
        rcases hg with hg | hg | hg <;> (subst hg; decide)
      rw [hf]
      rfl
    · rw [if_neg hg]
      exact h
  have hinput : allElemsL inputOk (stripUnsafeContent doc) = true := by
    refine allElemsL_mapAttrsL_estab inputOk inputAttrF (fun t a => ?_) _
    rw [inputAttrF]
    by_cases hg : t = "input" ∨ t = "textarea" ∨ t = "button"
    · rw [if_pos hg, inputOk, alookup_setAttr_self]
      simp
    · rw [if_neg hg, inputOk]
      have h1 : ¬(t = "input") := fun e => hg (Or.inl e)
      have h2 : ¬(t = "textarea") := fun e => hg (Or.inr (Or.inl e))
      have h3 : ¬(t = "button") := fun e => hg (Or.inr (Or.inr e))
      simp [h1, h2, h3]
  have hid := removeStripTags_id doc hns
  have hc : ∀ t : String, countTagL t (stripUnsafeContent doc) = countTagL t doc := by
    intro t
    show countTagL t (mapAttrsL inputAttrF (mapAttrsL formAttrF
      (mapAttrsL stripAttrF (removeStripTags doc)))) = _
    rw [countTagL_mapAttrsL, countTagL_mapAttrsL, countTagL_mapAttrsL, hid]
  exact ⟨hform, hinput, by decide, hc "form", hc "input", hc "textarea", hc "button"⟩

/-- Witness for C5 at the concrete document `docW`. -/
theorem c5_forms_disabled_witness :
    allElemsL formOk (stripUnsafeContent docW) = true
    ∧ allElemsL inputOk (stripUnsafeContent docW) = true
    ∧ memStr STRIP_ATTRIBUTES "onsubmit" = true
    ∧ countTagL "form" (stripUnsafeContent docW) = countTagL "form" docW
    ∧ countTagL "input" (stripUnsafeContent docW) = countTagL "input" docW
    ∧ countTagL "textarea" (stripUnsafeContent docW) = countTagL "textarea" docW
    ∧ countTagL "button" (stripUnsafeContent docW) = countTagL "button" docW :=
  c5_forms_disabled docW (by decide)

/-! ### C2 — matching discipline of the substitution phase -/

/-- Claim C2, as stated, is false at a concrete input: the asset map holds
the image's inlined data under the absolute form of its `src`
(`resolveUrl` of the protocol-relative literal), yet `rewriteAssets` leaves
the image's `src` untouched — image substitution never consults the
absolute key. -/
theorem c2_counterexample :
    resolveUrl urlLibC "//x.com/a.png" "https://y.com/" = "https://x.com/a.png"
    ∧ alookup mapC2 "https://x.com/a.png" = some "data:image/png;base64,AA"
    ∧ imgSrcL docC2 = ["//x.com/a.png"]
    ∧ imgSrcL (rewriteAssets urlLibC mapC2 (some "https://y.com/") docC2)
        = ["//x.com/a.png"] := by
  decide

/-- Claim C2 (amended): in `rewriteAssets`, an image's `src` is substituted
exactly when the asset map holds a truthy value under the *literal* `src`
text (a reference present only under its absolute key is left untouched);
a stylesheet link is replaced by a `<style>` block holding the CSS found
under its literal `href`, falling back to the absolute form resolved
against the base URL when a truthy base URL is supplied. -/
theorem c2_rewrite_matching_amended (L : UrlLib) (doc : NodeList) (m : AssetMap)
    (base : Option String) (hld : linksChildlessL doc = true) :
    imgSrcL (rewriteAssets L m base doc) = (imgSrcL doc).map (imgSubst m)
    ∧ sheetViewL (rewriteAssets L m base doc)
        = (sheetViewL doc).map (linkViewF L m base) :=
  ⟨imgSrcL_rewriteAssets L m base doc hld, sheetViewL_rewriteAssets L m base doc hld⟩

/-- Witness for C2 (amended) at the concrete document `docW`. -/
theorem c2_rewrite_matching_amended_witness :
    imgSrcL (rewriteAssets urlLibC [("http://w.com/s.css", "p color:red")]
        (some "http://w.com/") docW)
      = (imgSrcL docW).map (imgSubst [("http://w.com/s.css", "p color:red")])
    ∧ sheetViewL (rewriteAssets urlLibC [("http://w.com/s.css", "p color:red")]
        (some "http://w.com/") docW)
      = (sheetViewL docW).map
          (linkViewF urlLibC [("http://w.com/s.css", "p color:red")] (some "http://w.com/")) :=
  c2_rewrite_matching_amended urlLibC docW [("http://w.com/s.css", "p color:red")]
    (some "http://w.com/") (by decide)

/-! ### Prefix facts for the resolver claims -/

theorem listPfx_first (a : Char) (p : List Char) (s : List Char)
    (h : listPfx (a :: p) s = true) : ∃ t, s = a :: t := by
  cases s with
  | nil => cases h
  | cons b bs =>
    rw [listPfx] at h
    rcases bool_and_split h with ⟨h1, _⟩
    exact ⟨bs, by rw [beq_iff_eq.mp h1]⟩

theorem listPfx_cons_false (a : Char) (p : List Char) (b : Char) (s : List Char)
    (h : ¬(a = b)) : listPfx (a :: p) (b :: s) = false := by
  rw [listPfx]
  simp [h]

/-! ### C10 — resolution idempotence on absolute references -/

/-- Claim C10: for every already-absolute reference `u` (one carrying an
`http://` or `https://` scheme) and every base URL and URL library,
`resolve(resolve(u, b), b) = resolve(u, b)`. -/
theorem c10_resolve_idempotent (L : UrlLib) (u b : String)
    (h : strStarts u "http://" = true ∨ strStarts u "https://" = true) :
    resolveUrl L (resolveUrl L u b) b = resolveUrl L u b := by
  have hd : ∃ t, u.data = 'h' :: t := by
    rcases h with h | h
    · rw [strStarts,
        show ("http://" : String).data = ['h', 't', 't', 'p', ':', '/', '/'] from rfl] at h
      exact listPfx_first 'h' _ _ h
    · rw [strStarts,
        show ("https://" : String).data = ['h', 't', 't', 'p', 's', ':', '/', '/'] from rfl] at h
      exact listPfx_first 'h' _ _ h
  rcases hd with ⟨t, ht⟩
  have hns : strStarts u "//" = false := by
    rw [strStarts, show ("//" : String).data = ['/', '/'] from rfl, ht]
    exact listPfx_cons_false '/' ['/'] 'h' t (by decide)
  have hns2 : ¬(strStarts u "//" = true) := by
    rw [hns]
    exact Bool.false_ne_true
  have hor : (strStarts u "http://" || strStarts u "https://") = true := by
    rcases h with h | h
    · rw [h, Bool.true_or]
    · rw [h, Bool.or_true]
  have hfix : resolveUrl L u b = u := by
    rw [resolveUrl, if_neg hns2, if_pos hor]
  rw [hfix, hfix]

/-- Witness for C10 at a concrete absolute reference. -/
theorem c10_resolve_idempotent_witness :
    resolveUrl urlLibC (resolveUrl urlLibC "http://a.com/x" "https://y.com/") "https://y.com/"
      = resolveUrl urlLibC "http://a.com/x" "https://y.com/" :=
  c10_resolve_idempotent urlLibC "http://a.com/x" "https://y.com/" (Or.inl (by decide))

/-! ### C9 — `data:` passthrough -/

theorem all_nondata_filterMap (L : UrlLib) (base : String) (us : List String) :
    (us.filterMap (fun u => if strStarts u "data:" then none
      else some (⟨u, resolveUrl L u base⟩ : AssetRef))).all
      (fun r => !strStarts r.original "data:") = true := by
  induction us with
  | nil => rfl
  | cons u rest ih =>
    by_cases hu : strStarts u "data:" = true
    · simp [List.filterMap_cons, hu, ih]
    · have hf : strStarts u "data:" = false := by
        revert hu
        cases strStarts u "data:" <;> simp
      simp [List.filterMap_cons, hf, ih]

theorem all_nondata_importFilter (L : UrlLib) (base : String) (ms : List String) :
    (ms.filterMap (fun mt =>
      let u := importRefText mt
      if strStarts u "data:" then none
      else some (⟨u, resolveUrl L u base⟩ : AssetRef))).all
      (fun r => !strStarts r.original "data:") = true := by
  induction ms with
  | nil => rfl
  | cons mt rest ih =>
    by_cases hu : strStarts (importRefText mt) "data:" = true
    · simp [List.filterMap_cons, hu, ih]
    · have hf : strStarts (importRefText mt) "data:" = false := by
        revert hu
        cases strStarts (importRefText mt) "data:" <;> simp
      simp [List.filterMap_cons, hf, ih]

theorem all_nondata_imgRefs (L : UrlLib) (b : String) :
    ∀ l, (imgRefsL L b l).all (fun r => !strStarts r.original "data:") = true :=
  (@treeInd
    (fun n => (imgRefsN L b n).all (fun r => !strStarts r.original "data:") = true)
    (fun l => (imgRefsL L b l).all (fun r => !strStarts r.original "data:") = true)
    (fun _ => rfl)
    (fun t a cs ih => by
      simp only [imgRefsN_elem, List.all_append, ih, Bool.and_true]
      by_cases ht : t = "img"
      · rw [if_pos ht]
        cases hs : alookup a "src" with
        | none => rfl
        | some s =>
          simp only [hs]
          by_cases hg : (!(s = "") && !strStarts s "data:") = true
          · rcases bool_and_split hg with ⟨_, h2⟩
            have h2f : strStarts s "data:" = false := by
              revert h2
              cases strStarts s "data:" <;> simp
            simp [hg, h2f]
          · rw [if_neg hg]
            rfl
      · rw [if_neg ht]
        rfl)
    rfl
    (fun n ns ihn ihl => by
      simp only [imgRefsL_cons, List.all_append, ihn, ihl]
      rfl)).2

theorem all_nondata_bgRefs (L : UrlLib) (b : String) :
    ∀ l, (bgRefsL L b l).all (fun r => !strStarts r.original "data:") = true :=
  (@treeInd
    (fun n => (bgRefsN L b n).all (fun r => !strStarts r.original "data:") = true)
    (fun l => (bgRefsL L b l).all (fun r => !strStarts r.original "data:") = true)
    (fun _ => rfl)
    (fun t a cs ih => by
      simp only [bgRefsN_elem, List.all_append, ih, Bool.and_true]
      cases hs : alookup a "style" with
      | none => rfl
      | some st =>
        simp only [hs]
        by_cases hb : strContains st "background"
        · rw [if_pos hb]
          exact all_nondata_filterMap L b (cssUrls st)
        · rw [if_neg hb]
          rfl)
    rfl
    (fun n ns ihn ihl => by
      simp only [bgRefsL_cons, List.all_append, ihn, ihl]
      rfl)).2

theorem all_nondata_linkRefs (L : UrlLib) (b : String) :
    ∀ l, (linkRefsL L b l).all (fun r => !strStarts r.original "data:") = true :=
  (@treeInd
    (fun n => (linkRefsN L b n).all (fun r => !strStarts r.original "data:") = true)
    (fun l => (linkRefsL L b l).all (fun r => !strStarts r.original "data:") = true)
    (fun _ => rfl)
    (fun t a cs ih => by
      simp only [linkRefsN_elem, List.all_append, ih, Bool.and_true]
      by_cases ht : t = "link" ∧ alookup a "rel" = some "stylesheet"
      · rw [if_pos ht]
        cases hs : alookup a "href" with
        | none => rfl
        | some href =>
          simp only [hs]
          by_cases hg : (!(href = "") && !strStarts href "data:") = true
          · rcases bool_and_split hg with ⟨_, h2⟩
            have h2f : strStarts href "data:" = false := by
              revert h2
              cases strStarts href "data:" <;> simp
            simp [hg, h2f]
          · rw [if_neg hg]
            rfl
      · rw [if_neg ht]
        rfl)
    rfl
    (fun n ns ihn ihl => by
      simp only [linkRefsL_cons, List.all_append, ihn, ihl]
      rfl)).2

theorem all_nondata_importRefs (L : UrlLib) (b : String) :
    ∀ l, (importRefsL L b l).all (fun r => !strStarts r.original "data:") = true :=
  (@treeInd
    (fun n => (importRefsN L b n).all (fun r => !strStarts r.original "data:") = true)
    (fun l => (importRefsL L b l).all (fun r => !strStarts r.original "data:") = true)
    (fun _ => rfl)
    (fun t a cs ih => by
      simp only [importRefsN_elem, List.all_append, ih, Bool.and_true]
      by_cases ht : t = "style"
      · rw [if_pos ht]
        exact all_nondata_importFilter L b (importScan (textOfChildren cs))
      · rw [if_neg ht]
        rfl)
    rfl
    (fun n ns ihn ihl => by
      simp only [importRefsL_cons, List.all_append, ihn, ihl]
      rfl)).2

/-- Claim C9: a `data:` reference is returned unchanged by the resolver for
any base URL, and asset extraction never emits an image or stylesheet
reference whose text is a `data:` reference (each extraction rule filters
them), so no `data:` reference is ever handed to the fetch phase. -/
theorem c9_data_passthrough (L : UrlLib) (ref base b2 : String) (doc : NodeList)
    (hd : strStarts ref "data:" = true) :
    resolveUrl L ref base = ref
    ∧ ((extractAssets L doc b2).images ++ (extractAssets L doc b2).stylesheets).all
        (fun r => !strStarts r.original "data:") = true := by
  constructor
  · have hdd : ∃ t, ref.data = 'd' :: t := by
      rw [strStarts, show ("data:" : String).data = ['d', 'a', 't', 'a', ':'] from rfl] at hd
      exact listPfx_first 'd' _ _ hd
    rcases hdd with ⟨t, ht⟩
    have hns : ¬(strStarts ref "//" = true) := by
      rw [strStarts, show ("//" : String).data = ['/', '/'] from rfl, ht,
        listPfx_cons_false '/' ['/'] 'd' t (by decide)]
      exact Bool.false_ne_true
    have hh1 : strStarts ref "http://" = false := by
      rw [strStarts, show ("http://" : String).data = ['h', 't', 't', 'p', ':', '/', '/'] from rfl,
        ht]
      exact listPfx_cons_false 'h' _ 'd' t (by decide)
    have hh2 : strStarts ref "https://" = false := by
      rw [strStarts,
        show ("https://" : String).data = ['h', 't', 't', 'p', 's', ':', '/', '/'] from rfl, ht]
      exact listPfx_cons_false 'h' _ 'd' t (by decide)
    have hor : ¬((strStarts ref "http://" || strStarts ref "https://") = true) := by
      rw [hh1, hh2]
      exact Bool.false_ne_true
    rw [resolveUrl, if_neg hns, if_neg hor, if_pos hd]
  · have he : (extractAssets L doc b2).images ++ (extractAssets L doc b2).stylesheets
        = (imgRefsL L b2 doc ++ bgRefsL L b2 doc)
          ++ (linkRefsL L b2 doc ++ importRefsL L b2 doc) := rfl
    rw [he, List.all_append, List.all_append, List.all_append,
      all_nondata_imgRefs L b2 doc, all_nondata_bgRefs L b2 doc,
      all_nondata_linkRefs L b2 doc, all_nondata_importRefs L b2 doc]
    rfl

/-- Witness for C9 at a concrete `data:` reference and the all-`data:`
document `docC9` (whose only surviving extraction row is the bogus
`"@import"` text of the `@import` rule, which is itself not a `data:`
reference). -/
theorem c9_data_passthrough_witness :
    resolveUrl urlLibC "data:text/plain,hi" "https://y.com/" = "data:text/plain,hi"
    ∧ ((extractAssets urlLibC docC9 "https://y.com/").images
        ++ (extractAssets urlLibC docC9 "https://y.com/").stylesheets).all
        (fun r => !strStarts r.original "data:") = true :=
  c9_data_passthrough urlLibC "data:text/plain,hi" "https://y.com/" "https://y.com/" docC9
    (by decide)

/-! ### C6 — the robots policy gate -/

/-- Claim C6: the gate blocks exactly when the robots resource is retrieved
with status 200 and the parsed rules disallow the target (the
`robots-parser` verdict is the oracle `isAllowedO`); every failure to
obtain the resource — network error / thrown status (`none`), a `≥ 500`
status (also thrown), or any non-200 status such as 404 — yields
permission, and when permitted the page fetch proceeds untouched by the
gate. -/
theorem c6_robots_gate (robotsResp : Option (Nat × String)) (isAllowedO : String → Bool)
    (pageResp : Except FetchErr (String × String)) :
    checkRobots robotsResp isAllowedO = !robotsBlockedSpec robotsResp isAllowedO
    ∧ fetchHTML robotsResp isAllowedO pageResp =
        (if robotsBlockedSpec robotsResp isAllowedO = true then
          Except.error (fetchErrMsg (.generic "Blocked by robots.txt"))
         else
          match pageResp with
          | .ok p => .ok p
          | .error e => .error (fetchErrMsg e)) := by
  have h1 : checkRobots robotsResp isAllowedO = !robotsBlockedSpec robotsResp isAllowedO := by
    cases robotsResp with
    | none => rfl
    | some sb =>
      rcases sb with ⟨status, body⟩
      rw [checkRobots, robotsBlockedSpec]
      by_cases h5 : 500 ≤ status
      · rw [if_pos h5]
        have hne : ¬(status = 200) := by omega
        have hb : (status == 200) = false := by simp [hne]
        rw [hb]
        rfl
      · rw [if_neg h5]
        by_cases h2 : status = 200
        · subst h2
          rw [if_pos rfl]
          simp
        · rw [if_neg h2]
          have hb : (status == 200) = false := by simp [h2]
          rw [hb]
          rfl
  refine ⟨h1, ?_⟩
  simp only [fetchHTML]
  rw [h1]
  cases hb : robotsBlockedSpec robotsResp isAllowedO with
  | true => simp
  | false => simp

/-! ### C8 — session isolation of the store -/

theorem getAssetMap_storeAsset_ne (st : Store) (s sid k v : String) (h : ¬(s = sid)) :
    getAssetMap (storeAsset st s k v) sid = getAssetMap st sid := by
  induction st with
  | nil => simp [storeAsset, getAssetMap, h]
  | cons e rest ih =>
    rcases e with ⟨s2, m2⟩
    by_cases h2 : s2 = s
    · simp [storeAsset, getAssetMap, h2, h]
    · by_cases h3 : s2 = sid
      · have hsym : ¬(sid = s) := fun e => h e.symm
        simp [storeAsset, getAssetMap, h2, h3, hsym]
      · simp [storeAsset, getAssetMap, h2, h3, ih]

theorem getAssetMap_storeAsset_self (st : Store) (sid k v : String) :
    getAssetMap (storeAsset st sid k v) sid = setAttr (getAssetMap st sid) k v := by
  induction st with
  | nil => simp [storeAsset, getAssetMap]
  | cons e rest ih =>
    rcases e with ⟨s2, m2⟩
    by_cases h2 : s2 = sid
    · simp [storeAsset, getAssetMap, h2]
    · simp [storeAsset, getAssetMap, h2, ih]

theorem getAssetMap_applyOps_filter (b : String) :
    ∀ ops (st st2 : Store), getAssetMap st b = getAssetMap st2 b →
      getAssetMap (applyOps ops st) b
        = getAssetMap (applyOps (ops.filter (fun o => o.sid == b)) st2) b := by
  intro ops
  induction ops with
  | nil => exact fun st st2 h => h
  | cons op rest ih =>
    intro st st2 h
    rw [applyOps]
    by_cases ho : op.sid = b
    · have hb : (op.sid == b) = true := beq_iff_eq.mpr ho
      rw [List.filter_cons, if_pos hb, applyOps]
      apply ih
      rw [ho] at *
      rw [getAssetMap_storeAsset_self, getAssetMap_storeAsset_self, h]
    · have hb : (op.sid == b) = false := by simp [ho]
      rw [List.filter_cons, if_neg (by rw [hb]; exact Bool.false_ne_true)]
      apply ih
      rw [getAssetMap_storeAsset_ne st op.sid b op.key op.val ho]
      exact h

/-- Claim C8: `storeAsset` under one session id never changes another
session's asset map, and the asset map visible under a session id `b` after
any sequence of stores is exactly the one produced by the stores that
targeted `b`. -/
theorem c8_session_isolation (a b k v : String) (st : Store) (ops : List StoreOp)
    (hab : ¬(a = b)) :
    getAssetMap (storeAsset st a k v) b = getAssetMap st b
    ∧ getAssetMap (applyOps ops emptyStore) b
        = getAssetMap (applyOps (ops.filter (fun o => o.sid == b)) emptyStore) b :=
  ⟨getAssetMap_storeAsset_ne st a b k v hab,
   getAssetMap_applyOps_filter b ops emptyStore emptyStore rfl⟩

/-- Witness for C8 at two concrete sessions and a concrete op sequence. -/
theorem c8_session_isolation_witness :
    getAssetMap (storeAsset emptyStore "s1" "k" "v") "s2" = getAssetMap emptyStore "s2"
    ∧ getAssetMap (applyOps [⟨"s1", "k", "v"⟩, ⟨"s2", "k2", "v2"⟩] emptyStore) "s2"
        = getAssetMap (applyOps
            (([⟨"s1", "k", "v"⟩, ⟨"s2", "k2", "v2"⟩] : List StoreOp).filter
              (fun o => o.sid == "s2")) emptyStore) "s2" :=
  c8_session_isolation "s1" "s2" "k" "v" emptyStore
    [⟨"s1", "k", "v"⟩, ⟨"s2", "k2", "v2"⟩] (by decide)

/-! ### C7 — cleanup happens exactly once -/

theorem getAssetMap_clearSession (st : Store) (sid : String) :
    getAssetMap (clearSession st sid) sid = [] := by
  induction st with
  | nil => rfl
  | cons e rest ih =>
    rcases e with ⟨s, m⟩
    rw [clearSession] at ih ⊢
    by_cases h : s = sid
    · have : ¬((s, m).1 ≠ sid) := by simp [h]
      rw [List.filter_cons, if_neg (by simpa using this)]
      exact ih
    · rw [List.filter_cons, if_pos (by simpa using h)]
      rw [getAssetMap, if_neg h]
      exact ih

theorem clearSession_all (st : Store) (sid : String) :
    (clearSession st sid).all (fun e => !(e.1 = sid)) = true := by
  induction st with
  | nil => rfl
  | cons e rest ih =>
    rcases e with ⟨s, m⟩
    rw [clearSession] at ih ⊢
    by_cases h : s = sid
    · rw [List.filter_cons, if_neg (by simpa using not_not_intro h)]
      exact ih
    · rw [List.filter_cons, if_pos (by simpa using h)]
      simp [h, ih]

/-- Claim C7: for every replication request that passes input validation
(url present, non-empty and well-formed), the handler calls
`clearSession` exactly once — on the success exit and on the catch exit
alike — and the store it leaves behind holds no entry under the job's
session id. -/
theorem c7_cleanup (L : UrlLib) (u : String) (validUrlO : String → Bool)
    (pageO : Except String (String × NodeList)) (cssO imgO : String → Option String)
    (sid : String) (st0 : Store)
    (hu : ¬(u = "")) (hv : validUrlO u = true) :
    (replicateHandler L (some u) validUrlO pageO cssO imgO sid st0).2.2 = 1
    ∧ getAssetMap (replicateHandler L (some u) validUrlO pageO cssO imgO sid st0).2.1 sid
        = []
    ∧ ((replicateHandler L (some u) validUrlO pageO cssO imgO sid st0).2.1).all
        (fun e => !(e.1 = sid)) = true := by
  have hv2 : ¬(validUrlO u = false) := by
    rw [hv]
    exact fun hc => Bool.noConfusion hc
  simp only [replicateHandler, if_neg hu, if_neg hv2]
  cases pageO with
  | error e =>
    exact ⟨rfl, getAssetMap_clearSession st0 sid, clearSession_all st0 sid⟩
  | ok p =>
    rcases p with ⟨fu, doc⟩
    exact ⟨rfl,
      getAssetMap_clearSession (replicateJob L doc fu cssO imgO sid st0).2 sid,
      clearSession_all (replicateJob L doc fu cssO imgO sid st0).2 sid⟩

/-- Witness for C7 at a concrete request. -/
theorem c7_cleanup_witness :
    (replicateHandler urlLibC (some "http://w.com/") (fun _ => true)
      (Except.ok ("http://w.com/", docW)) cssOW imgOW "s" emptyStore).2.2 = 1
    ∧ getAssetMap (replicateHandler urlLibC (some "http://w.com/") (fun _ => true)
        (Except.ok ("http://w.com/", docW)) cssOW imgOW "s" emptyStore).2.1 "s" = []
    ∧ ((replicateHandler urlLibC (some "http://w.com/") (fun _ => true)
        (Except.ok ("http://w.com/", docW)) cssOW imgOW "s" emptyStore).2.1).all
        (fun e => !(e.1 = "s")) = true :=
  c7_cleanup urlLibC "http://w.com/" (fun _ => true)
    (Except.ok ("http://w.com/", docW)) cssOW imgOW "s" emptyStore (by decide) rfl

/-! ### C3 — partial failure isolation -/

/-- Claim C3, as stated, is false at a concrete job: `docC3` has N = 1
image reference and M = 1 failing image fetch (stats report 1 total, 0
succeeded), the job succeeds, yet the failing image does *not* keep its
original `src` text — its `src` collides with the successfully fetched
stylesheet's key, so the rewrite replaces it with the stored CSS text. -/
theorem c3_counterexample :
    (replicateJob urlLibC docC3 "http://x.com/" cssO3 imgOfail "s" emptyStore).1.success
      = true
    ∧ (replicateJob urlLibC docC3 "http://x.com/" cssO3 imgOfail "s"
        emptyStore).1.stats.totalImages = 1
    ∧ (replicateJob urlLibC docC3 "http://x.com/" cssO3 imgOfail "s"
        emptyStore).1.stats.images = 0
    ∧ imgSrcL docC3 = ["http://x.com/a.css"]
    ∧ imgSrcL (replicateJob urlLibC docC3 "http://x.com/" cssO3 imgOfail "s"
        emptyStore).1.html = ["bodycolorred"] := by
  decide

/-- Claim C3 (amended): every job that gets past the page fetch completes
successfully; `stats.totalImages` is the number N of extracted image
references and `stats.images` the number N − M of references whose fetch
succeeded; and each image's `src` in the output document is its original
text unless that text is a key of the job's processed asset map (as
happens for every successfully fetched image, but also for a failing image
whose `src` text collides with another stored key) — in particular a
failing image whose `src` is not a stored key keeps its original `src`. -/
theorem c3_partial_failure_amended (L : UrlLib) (doc : NodeList) (base : String)
    (cssO imgO : String → Option String) (sid : String)
    (hld : linksChildlessL doc = true) (hns : noStripTagsL doc = true) :
    (replicateJob L doc base cssO imgO sid emptyStore).1.success = true
    ∧ (replicateJob L doc base cssO imgO sid emptyStore).1.stats.totalImages
        = (extractAssets L doc base).images.length
    ∧ (replicateJob L doc base cssO imgO sid emptyStore).1.stats.images
        = ((extractAssets L doc base).images.filter
            (fun i => isTruthyOpt (imgO i.absolute))).length
    ∧ imgSrcL (replicateJob L doc base cssO imgO sid emptyStore).1.html
        = (imgSrcL doc).map
            (imgSubst (jobProcessedMap L doc base cssO imgO sid emptyStore)) := by
  refine ⟨rfl, rfl, rfl, ?_⟩
  show imgSrcL (addReplicaBanner (rewriteAssets L
    (jobProcessedMap L doc base cssO imgO sid emptyStore) none
    (stripUnsafeContent doc))) = _
  rw [addReplicaBanner, imgSrcL_addBannerL,
    imgSrcL_rewriteAssets L _ none _ (linksChildlessL_stripUnsafeContent doc hld hns),
    imgSrcL_stripUnsafeContent doc hns]

/-- Witness for C3 (amended) at a concrete job on `docW` where the single
image fetch fails: stats report 1/0 and the failing image keeps its
original `src` (its text is not a stored key). -/
theorem c3_partial_failure_amended_witness :
    ((replicateJob urlLibC docW "http://w.com/" cssOW imgOfail "s" emptyStore).1.success
        = true
      ∧ (replicateJob urlLibC docW "http://w.com/" cssOW imgOfail "s"
          emptyStore).1.stats.totalImages
          = (extractAssets urlLibC docW "http://w.com/").images.length
      ∧ (replicateJob urlLibC docW "http://w.com/" cssOW imgOfail "s"
          emptyStore).1.stats.images
          = ((extractAssets urlLibC docW "http://w.com/").images.filter
              (fun i => isTruthyOpt (imgOfail i.absolute))).length
      ∧ imgSrcL (replicateJob urlLibC docW "http://w.com/" cssOW imgOfail "s"
          emptyStore).1.html
          = (imgSrcL docW).map
              (imgSubst (jobProcessedMap urlLibC docW "http://w.com/" cssOW imgOfail "s"
                emptyStore)))
    ∧ imgSrcL (replicateJob urlLibC docW "http://w.com/" cssOW imgOfail "s"
        emptyStore).1.html = ["http://w.com/i.png"] :=
  ⟨c3_partial_failure_amended urlLibC docW "http://w.com/" cssOW imgOfail "s"
    (by decide) (by decide), by decide⟩

/-! ### C4 support: stored values are truthy and survive the folds -/

theorem str_data_ne_of_ne (s : String) (h : ¬(s = "")) : s.data ≠ [] := by
  intro e
  exact h (String.ext e)

theorem str_ne_of_data_ne (s : String) (h : s.data ≠ []) : ¬(s = "") :=
  fun e => h (by rw [e])

theorem replaceAllF_ne_nil (p r : List Char) (hr : r ≠ []) :
    ∀ fuel s, s ≠ [] → replaceAllF p r fuel s ≠ [] := by
  intro fuel
  induction fuel with
  | zero => exact fun s hs => hs
  | succ f ih =>
    intro s hs
    cases s with
    | nil => exact absurd rfl hs
    | cons c cs =>
      rw [replaceAllF]
      by_cases hcond : p ≠ [] ∧ listPfx p (c :: cs) = true
      · rw [if_pos hcond]
        intro he
        exact hr (List.append_eq_nil.mp he).1
      · rw [if_neg hcond]
        exact List.cons_ne_nil c _

theorem strReplaceAll_ne_empty (s p r : String) (hs : ¬(s = "")) (hr : ¬(r = "")) :
    ¬(strReplaceAll s p r = "") := by
  apply str_ne_of_data_ne
  show replaceAllF p.data r.data s.data.length s.data ≠ []
  exact replaceAllF_ne_nil p.data r.data (str_data_ne_of_ne r hr) _ _
    (str_data_ne_of_ne s hs)

theorem processCSSStep_ne_empty (L : UrlLib) (base : String) (m : AssetMap)
    (acc u : String) (h : ¬(acc = "")) :
    ¬(processCSSStep L base m acc u = "") := by
  rw [processCSSStep]
  by_cases hd : strStarts u "data:" = true
  · rw [if_pos hd]
    exact h
  · rw [if_neg hd]
    cases ha : getTruthy m (resolveUrl L u base) with
    | some v =>
      simp only [ha]
      exact strReplaceAll_ne_empty acc u v h
        (getTruthy_ne_empty m (resolveUrl L u base) v ha)
    | none =>
      simp only [ha]
      cases hu : getTruthy m u with
      | some v =>
        simp only [hu]
        exact strReplaceAll_ne_empty acc u v h (getTruthy_ne_empty m u v hu)
      | none =>
        simp only [hu]
        exact h

theorem processCSS_ne_empty (L : UrlLib) (css base : String) (m : AssetMap)
    (h : ¬(css = "")) : ¬(processCSS L css base m = "") := by
  rw [processCSS]
  have main : ∀ (us : List String) (acc : String), ¬(acc = "") →
      ¬(us.foldl (processCSSStep L base m) acc = "") := by
    intro us
    induction us with
    | nil => exact fun acc ha => ha
    | cons u rest ih =>
      intro acc ha
      rw [List.foldl_cons]
      exact ih _ (processCSSStep_ne_empty L base m acc u ha)
  exact main (cssUrls css) css h

theorem getTruthy_setAttr_self (m : AssetMap) (k v : String) (hv : ¬(v = "")) :
    getTruthy (setAttr m k v) k = some v := by
  simp only [getTruthy, alookup_setAttr_self, if_neg hv]

theorem getTruthy_setAttr_ne (m : AssetMap) (k v k2 : String) (h : ¬(k2 = k)) :
    getTruthy (setAttr m k v) k2 = getTruthy m k2 := by
  simp only [getTruthy, alookup_setAttr_ne m k v k2 h]

theorem hasTruthy_setAttr (m : AssetMap) (k k2 v2 : String) (hv2 : ¬(v2 = ""))
    (h : ∃ v, getTruthy m k = some v) :
    ∃ v, getTruthy (setAttr m k2 v2) k = some v := by
  by_cases he : k = k2
  · subst he
    exact ⟨v2, getTruthy_setAttr_self m k v2 hv2⟩
  · rcases h with ⟨v, hv⟩
    exact ⟨v, by rw [getTruthy_setAttr_ne m k2 v2 k he, hv]⟩

theorem hasTruthy_sheetStoreStep (cssO : String → Option String) (sid : String)
    (st : Store) (sheet : AssetRef) (k : String)
    (h : ∃ v, getTruthy (getAssetMap st sid) k = some v) :
    ∃ v, getTruthy (getAssetMap (sheetStoreStep cssO sid st sheet) sid) k = some v := by
  rw [sheetStoreStep]
  cases hc : cssO sheet.absolute with
  | none => exact h
  | some css =>
    simp only [hc]
    by_cases he : css = ""
    · rw [if_pos he]
      exact h
    · rw [if_neg he, getAssetMap_storeAsset_self, getAssetMap_storeAsset_self]
      exact hasTruthy_setAttr _ _ _ _ he (hasTruthy_setAttr _ _ _ _ he h)

theorem hasTruthy_imgStoreStep (imgO : String → Option String) (sid : String)
    (st : Store) (img : AssetRef) (k : String)
    (h : ∃ v, getTruthy (getAssetMap st sid) k = some v) :
    ∃ v, getTruthy (getAssetMap (imgStoreStep imgO sid st img) sid) k = some v := by
  rw [imgStoreStep]
  cases hc : imgO img.absolute with
  | none => exact h
  | some d =>
    simp only [hc]
    by_cases he : d = ""
    · rw [if_pos he]
      exact h
    · rw [if_neg he, getAssetMap_storeAsset_self, getAssetMap_storeAsset_self]
      exact hasTruthy_setAttr _ _ _ _ he (hasTruthy_setAttr _ _ _ _ he h)

theorem hasTruthy_sheetFold (cssO : String → Option String) (sid k : String) :
    ∀ (sheets : List AssetRef) (st : Store),
      (∃ v, getTruthy (getAssetMap st sid) k = some v) →
      ∃ v, getTruthy (getAssetMap (sheets.foldl (sheetStoreStep cssO sid) st) sid) k
        = some v := by
  intro sheets
  induction sheets with
  | nil => exact fun st h => h
  | cons x xs ih =>
    intro st h
    rw [List.foldl_cons]
    exact ih _ (hasTruthy_sheetStoreStep cssO sid st x k h)

theorem hasTruthy_imgFold (imgO : String → Option String) (sid k : String) :
    ∀ (imgs : List AssetRef) (st : Store),
      (∃ v, getTruthy (getAssetMap st sid) k = some v) →
      ∃ v, getTruthy (getAssetMap (imgs.foldl (imgStoreStep imgO sid) st) sid) k
        = some v := by
  intro imgs
  induction imgs with
  | nil => exact fun st h => h
  | cons x xs ih =>
    intro st h
    rw [List.foldl_cons]
    exact ih _ (hasTruthy_imgStoreStep imgO sid st x k h)

theorem hasTruthy_sheetFold_mem (cssO : String → Option String) (sid : String)
    (r : AssetRef) (hsucc : isTruthyOpt (cssO r.absolute) = true) :
    ∀ (sheets : List AssetRef) (st : Store), r ∈ sheets →
      ∃ v, getTruthy
        (getAssetMap (sheets.foldl (sheetStoreStep cssO sid) st) sid) r.original
        = some v := by
  intro sheets
  induction sheets with
  | nil => intro st h; cases h
  | cons x xs ih =>
    intro st hmem
    rw [List.foldl_cons]
    rcases List.mem_cons.mp hmem with he | ht
    · subst he
      apply hasTruthy_sheetFold cssO sid r.original xs _
      rw [sheetStoreStep]
      cases hc : cssO r.absolute with
      | none =>
        rw [hc] at hsucc
        cases hsucc
      | some css =>
        have hne : ¬(css = "") := by
          rw [hc] at hsucc
          simpa [isTruthyOpt] using hsucc
        simp only [hc]
        rw [if_neg hne, getAssetMap_storeAsset_self, getAssetMap_storeAsset_self]
        by_cases hoa : r.original = r.absolute
        · exact ⟨css, by rw [hoa]; exact getTruthy_setAttr_self _ _ _ hne⟩
        · exact ⟨css, by
            rw [getTruthy_setAttr_ne _ r.absolute css r.original hoa]
            exact getTruthy_setAttr_self _ _ _ hne⟩
    · exact ih _ ht

theorem hasTruthy_processStep (L : UrlLib) (base : String) (am pm : AssetMap)
    (sheet : AssetRef) (k : String) (h : ∃ v, getTruthy pm k = some v) :
    ∃ v, getTruthy (processStep L base am pm sheet) k = some v := by
  rw [processStep]
  cases hc : (match getTruthy am sheet.original with
    | some c => some c
    | none => getTruthy am sheet.absolute) with
  | none => exact h
  | some css =>
    simp only [hc]
    have hcne : ¬(css = "") := by
      cases ho : getTruthy am sheet.original with
      | some c =>
        rw [ho] at hc
        simp only [Option.some.injEq] at hc
        rw [← hc]
        exact getTruthy_ne_empty am sheet.original c ho
      | none =>
        rw [ho] at hc
        exact getTruthy_ne_empty am sheet.absolute css hc
    have hpne : ¬((if strContains css "url(" then processCSS L css base am else css) = "") := by
      by_cases hu : strContains css "url("
      · rw [if_pos hu]
        exact processCSS_ne_empty L css base am hcne
      · rw [if_neg hu]
        exact hcne
    exact hasTruthy_setAttr _ _ _ _ hpne (hasTruthy_setAttr _ _ _ _ hpne h)

theorem hasTruthy_processFold (L : UrlLib) (base : String) (am : AssetMap) (k : String) :
    ∀ (sheets : List AssetRef) (pm : AssetMap),
      (∃ v, getTruthy pm k = some v) →
      ∃ v, getTruthy (sheets.foldl (processStep L base am) pm) k = some v := by
  intro sheets
  induction sheets with
  | nil => exact fun pm h => h
  | cons x xs ih =>
    intro pm h
    rw [List.foldl_cons]
    exact ih _ (hasTruthy_processStep L base am pm x k h)

/-- A stylesheet link that fetched successfully has a truthy entry under
its literal `href` in the processed asset map. -/
theorem hasTruthy_jobProcessedMap (L : UrlLib) (doc : NodeList) (base : String)
    (cssO imgO : String → Option String) (sid : String) (r : AssetRef)
    (hmem : r ∈ (extractAssets L doc base).stylesheets)
    (hsucc : isTruthyOpt (cssO r.absolute) = true) :
    ∃ css, getTruthy (jobProcessedMap L doc base cssO imgO sid emptyStore) r.original
      = some css := by
  have h1 : ∃ v, getTruthy (jobAssetMap L doc base cssO imgO sid emptyStore) r.original
      = some v := by
    simp only [jobAssetMap, jobStore]
    apply hasTruthy_imgFold
    exact hasTruthy_sheetFold_mem cssO sid r hsucc _ emptyStore hmem
  simp only [jobProcessedMap]
  exact hasTruthy_processFold L base _ r.original _ _ h1

/-- Every reference collected from a stylesheet `link` corresponds to a
`Sum.inl (some href)` entry of the stylesheet view. -/
theorem sheetView_of_linkRef (L : UrlLib) (b : String) :
    ∀ l (r : AssetRef), r ∈ linkRefsL L b l →
      Sum.inl (some r.original) ∈ sheetViewL l :=
  (@treeInd
    (fun n => ∀ r : AssetRef, r ∈ linkRefsN L b n →
      Sum.inl (some r.original) ∈ sheetViewN n)
    (fun l => ∀ r : AssetRef, r ∈ linkRefsL L b l →
      Sum.inl (some r.original) ∈ sheetViewL l)
    (fun _ r h => by cases h)
    (fun t a cs ih r h => by
      rw [linkRefsN_elem] at h
      rw [sheetViewN_elem]
      rcases List.mem_append.mp h with hh | ht
      · apply List.mem_append_left
        by_cases hg : t = "link" ∧ alookup a "rel" = some "stylesheet"
        · rw [if_pos hg] at hh
          rw [if_pos hg]
          cases hr : alookup a "href" with
          | none =>
            rw [hr] at hh
            cases hh
          | some href =>
            rw [hr] at hh
            simp only at hh
            by_cases hg2 : (!(href = "") && !strStarts href "data:") = true
            · rw [if_pos hg2] at hh
              rcases List.mem_singleton.mp hh with he
              rw [he]
              exact List.mem_singleton.mpr rfl
            · rw [if_neg hg2] at hh
              cases hh
        · rw [if_neg hg] at hh
          cases hh
      · exact List.mem_append_right _ (ih r ht))
    (fun r h => by cases h)
    (fun n ns ihn ihl r h => by
      rw [linkRefsL_cons] at h
      rw [sheetViewL_cons]
      rcases List.mem_append.mp h with hh | ht
      · exact List.mem_append_left _ (ihn r hh)
      · exact List.mem_append_right _ (ihl r ht))).2

/-- When the lookup of `orig` succeeds, no entry of the rewritten view is
the still-a-link entry `Sum.inl (some orig)`. -/
theorem linkViewF_ne_inl (L : UrlLib) (m : AssetMap) (base : Option String)
    (orig css : String) (hc : linkCssLookup L m base orig = some css) :
    ∀ x, ¬(linkViewF L m base x = Sum.inl (some orig)) := by
  intro x
  match x with
  | .inr c => simp [linkViewF]
  | .inl none => simp [linkViewF]
  | .inl (some h) =>
    by_cases he : h = orig
    · subst he
      simp [linkViewF, hc]
    · cases hl : linkCssLookup L m base h with
      | some c => simp [linkViewF, hl]
      | none => simp [linkViewF, hl, he]

/-- Claim C4: for every `<link rel="stylesheet">` reference whose CSS fetch
succeeded, the job's processed asset map holds a (truthy) CSS text under
the link's literal `href`; the output document contains a
`<style type="text/css">` entry carrying exactly that text, and no
stylesheet `link` with that `href` remains. -/
theorem c4_stylesheet_inlining (L : UrlLib) (doc : NodeList) (base : String)
    (cssO imgO : String → Option String) (sid : String)
    (hld : linksChildlessL doc = true) (hns : noStripTagsL doc = true)
    (r : AssetRef) (hmem : r ∈ linkRefsL L base doc)
    (hsucc : isTruthyOpt (cssO r.absolute) = true) :
    ∃ css,
      getTruthy (jobProcessedMap L doc base cssO imgO sid emptyStore) r.original
        = some css
      ∧ Sum.inr css
          ∈ sheetViewL (replicateJob L doc base cssO imgO sid emptyStore).1.html
      ∧ Sum.inl (some r.original)
          ∉ sheetViewL (replicateJob L doc base cssO imgO sid emptyStore).1.html := by
  have hmem2 : r ∈ (extractAssets L doc base).stylesheets := by
    show r ∈ linkRefsL L base doc ++ importRefsL L base doc
    exact List.mem_append_left _ hmem
  obtain ⟨css, hcss⟩ :=
    hasTruthy_jobProcessedMap L doc base cssO imgO sid r hmem2 hsucc
  have hview : sheetViewL (replicateJob L doc base cssO imgO sid emptyStore).1.html
      = (sheetViewL doc).map
          (linkViewF L (jobProcessedMap L doc base cssO imgO sid emptyStore) none) := by
    show sheetViewL (addReplicaBanner (rewriteAssets L
      (jobProcessedMap L doc base cssO imgO sid emptyStore) none
      (stripUnsafeContent doc))) = _
    rw [addReplicaBanner, sheetViewL_addBannerL,
      sheetViewL_rewriteAssets L _ none _ (linksChildlessL_stripUnsafeContent doc hld hns),
      sheetViewL_stripUnsafeContent doc hns]
  have hlook : linkCssLookup L (jobProcessedMap L doc base cssO imgO sid emptyStore)
      none r.original = some css := by
    rw [linkCssLookup, hcss]
  have hlv : linkViewF L (jobProcessedMap L doc base cssO imgO sid emptyStore) none
      (Sum.inl (some r.original)) = Sum.inr css := by
    simp [linkViewF, hlook]
  refine ⟨css, hcss, ?_, ?_⟩
  · rw [hview]
    have hin := List.mem_map_of_mem
      (linkViewF L (jobProcessedMap L doc base cssO imgO sid emptyStore) none)
      (sheetView_of_linkRef L base doc r hmem)
    rw [hlv] at hin
    exact hin
  · rw [hview]
    intro hin
    rcases List.mem_map.mp hin with ⟨x, _, he⟩
    exact linkViewF_ne_inl L _ none r.original css hlook x he

/-- Witness for C4 at the concrete document `docW`, whose single stylesheet
link fetches successfully under `cssOW`. -/
theorem c4_stylesheet_inlining_witness :
    ∃ css,
      getTruthy (jobProcessedMap urlLibC docW "http://w.com/" cssOW imgOW "s" emptyStore)
        (AssetRef.mk "http://w.com/s.css" "http://w.com/s.css").original = some css
      ∧ Sum.inr css ∈ sheetViewL
          (replicateJob urlLibC docW "http://w.com/" cssOW imgOW "s" emptyStore).1.html
      ∧ Sum.inl (some (AssetRef.mk "http://w.com/s.css" "http://w.com/s.css").original)
          ∉ sheetViewL
            (replicateJob urlLibC docW "http://w.com/" cssOW imgOW "s" emptyStore).1.html :=
  c4_stylesheet_inlining urlLibC docW "http://w.com/" cssOW imgOW "s"
    (by decide) (by decide) (AssetRef.mk "http://w.com/s.css" "http://w.com/s.css")
    (by decide) (by decide)

end WebsitePlunder
